import Mathlib

/-! DpdkNetDevice: the ring-buffered bridge between ns-3 and a DPDK port.

A shallow embedding of `src/fd-net-device/model/dpdk-net-device.{h,cc}`.

* The device (`DpdkNetDevice`) owns two exchange rings (`m_txRing`, `m_rxRing`)
  and a packet buffer pool (`m_mempool`).  `Write` and `Read` are the
  simulation-side operations, `HandleTx`, `HandleRx` and `LaunchCore` the
  hardware-side polling loop, `DpdkNetDeviceReader.Run` the reader task.
* The DPDK library itself (`rte_ring_*`, `rte_pktmbuf_*`, `rte_eth_*`) is an
  external collaborator; it is modelled from the interface contract of the
  specification (sections 3, 4.1 and 6).
* Machine integers are naturals/integers with explicit wrap-around where the
  source converts between widths.
* Loops that the source runs unboundedly take a fuel argument and return
  `none` when the fuel is used up.
-/

namespace ns3

/-! ## Constants of dpdk-net-device.cc -/

/-- The default rte ring size for tx and rx. -/
def DEFAULT_RING_SIZE : Nat := 256

/-- The maximum number of packets transmitted from the rte_ring to the nic in one burst. -/
def MAX_TX_BURST : Nat := 32

/-- The maximum number of packets read from the nic to the rte_ring in one burst. -/
def MAX_RX_BURST : Nat := 32

/-! ## Machine integers -/

/-- One octet of frame data (`uint8_t`). -/
abbrev Byte := UInt8

/-- Conversion of a value to a two's complement signed integer of width `w`. -/
def toSigned (w : Nat) (n : Nat) : Int :=
  if n % 2 ^ w < 2 ^ (w - 1) then ((n % 2 ^ w : Nat) : Int)
  else ((n % 2 ^ w : Nat) : Int) - ((2 ^ w : Nat) : Int)

/-- Conversion to `int` (32 bits), as in `int length = pkt->pkt_len`. -/
def toInt32 (n : Nat) : Int := toSigned 32 n

/-- Conversion to `ssize_t` (64 bits), as in `return length` for a `size_t length`. -/
def toSSize (n : Nat) : Int := toSigned 64 n

/-- The C library `memcpy (dst, src, n)`: the first `n` bytes at `dst` are
replaced by the first `n` bytes at `src` (meaningful when both regions hold
at least `n` bytes, which is the caller's obligation in C). -/
def memcpy (dst src : List Byte) (n : Nat) : List Byte :=
  src.take n ++ dst.drop n

/-! ## Packet buffers and the buffer pool -/

/-- Modelled from the spec: PacketBuffer, the `struct rte_mbuf` of the DPDK
library, whose declaration is not part of this repository.  "Opaque handle to
hardware-owned memory holding one frame; attributes: data pointer, logical
length, capacity."  `addr` is the identity of the handle, `data` the bytes
from the data pointer on, `data_len` (16 bits) and `pkt_len` (32 bits) the
two logical-length fields the source assigns and reads. -/
structure rte_mbuf where
  addr : Nat
  data_len : Nat
  pkt_len : Nat
  data : List Byte
deriving DecidableEq, Repr

/-- Modelled from the spec: Packet Buffer Pool, the `struct rte_mempool` of the
DPDK library.  "Fixed-capacity pool of reusable fixed-size packet buffers":
`free` are the buffers currently owned by the pool, `data_room_size` the fixed
capacity in bytes of each of them. -/
structure rte_mempool where
  data_room_size : Nat
  free : List rte_mbuf
deriving DecidableEq, Repr

/-- Modelled from the spec: the capacity of the buffers of a pool as the library
reports it, a 16-bit quantity like every per-buffer length of an mbuf. -/
def rte_pktmbuf_data_room_size (mp : rte_mempool) : Nat :=
  mp.data_room_size % 2 ^ 16

/-- Modelled from the spec: `allocBuffer(pool) -> PacketBuffer | none`.  A
buffer leaves the pool with its logical length reset; `none` when no buffer
is available. -/
def rte_pktmbuf_alloc (mp : rte_mempool) : Option (rte_mbuf × rte_mempool) :=
  match mp.free with
  | [] => none
  | m :: rest => some ({ m with data_len := 0, pkt_len := 0 }, { mp with free := rest })

/-- Modelled from the spec: `freeBuffer(buffer)`, the buffer is owned by the
pool again. -/
def rte_pktmbuf_free (m : rte_mbuf) (mp : rte_mempool) : rte_mempool :=
  { mp with free := m :: mp.free }

/-- Modelled from the spec: read access to the payload of a buffer,
`rte_pktmbuf_read (m, off, len, buf)`: `none` (NULL) when the requested range
is not inside the frame, otherwise the `len` bytes from offset `off`. -/
def rte_pktmbuf_read (m : rte_mbuf) (off len : Nat) : Option (List Byte) :=
  if off + len > m.pkt_len then none else some ((m.data.drop off).take len)

/-- The frame a buffer carries: its first `pkt_len` bytes. -/
def rte_mbuf.payload (m : rte_mbuf) : List Byte := m.data.take m.pkt_len

/-- Modelled from the spec: well-formedness of a packet buffer holding one frame
in one segment, "a fixed-capacity memory region holding one frame's bytes plus
length metadata": both length fields agree, the frame lies inside the buffer,
and the length fits the 16-bit per-buffer length field. -/
def rte_mbuf.sane (m : rte_mbuf) : Bool :=
  decide (m.pkt_len = m.data_len) && decide (m.data_len ≤ m.data.length) &&
    decide (m.data_len < 2 ^ 16)

/-! ## The exchange ring -/

/-- Modelled from the spec: Exchange Ring, the `struct rte_ring` of the DPDK
library.  "Bounded sequence of PacketBuffer handles, fixed capacity set at
construction; FIFO order preserved."  The head of `items` is the oldest
handle. -/
structure rte_ring where
  capacity : Nat
  items : List rte_mbuf
deriving DecidableEq, Repr

/-- Modelled from the spec: ring construction with its fixed capacity; a new
ring is empty. -/
def rte_ring_create (count : Nat) : rte_ring :=
  { capacity := count, items := [] }

/-- Number of handles in the ring. -/
def rte_ring_count (r : rte_ring) : Nat := r.items.length

/-- Number of free slots in the ring. -/
def rte_ring_free_count (r : rte_ring) : Nat := r.capacity - r.items.length

/-- The ring is full. -/
def rte_ring_full (r : rte_ring) : Bool := decide (r.capacity ≤ r.items.length)

/-- The ring is empty. -/
def rte_ring_empty (r : rte_ring) : Bool := r.items.isEmpty

/-- Modelled from the spec: `tryEnqueue(handle) -> bool`, "appends if space
available; false and no side effect if full".  `none` is the failure (the
non-zero return of `rte_ring_enqueue`). -/
def rte_ring_enqueue (r : rte_ring) (obj : rte_mbuf) : Option rte_ring :=
  if r.items.length < r.capacity then some { r with items := r.items ++ [obj] } else none

/-- Modelled from the spec: enqueue of several handles, as many as there is
space for ("appends if space available"), in order; returns how many were
enqueued. -/
def rte_ring_enqueue_burst (r : rte_ring) (objs : List rte_mbuf) : Nat × rte_ring :=
  let n := min objs.length (rte_ring_free_count r)
  (n, { r with items := r.items ++ objs.take n })

/-- Modelled from the spec: `tryDequeueBurst(maxCount)`, "removes up to maxCount
handles in FIFO order; returns however many were actually available". -/
def rte_ring_dequeue_burst (r : rte_ring) (n : Nat) : List rte_mbuf × rte_ring :=
  (r.items.take n, { r with items := r.items.drop n })

/-- Modelled from the spec: dequeue of one handle; `none` is the failure on an
empty ring (the non-zero return of `rte_ring_dequeue`). -/
def rte_ring_dequeue (r : rte_ring) : Option (rte_mbuf × rte_ring) :=
  match r.items with
  | [] => none
  | m :: rest => some (m, { r with items := rest })

/-! ## The device -/

/-- The members of `DpdkNetDevice` that the data path uses. -/
structure DpdkNetDevice where
  m_forceQuit : Bool
  m_ringSize : Int
  m_txRing : rte_ring
  m_rxRing : rte_ring
  m_mempool : rte_mempool
deriving DecidableEq, Repr

/-- Source function `DpdkNetDevice::SetRteRingSize`. -/
def DpdkNetDevice.SetRteRingSize (dev : DpdkNetDevice) (ringSize : Int) : DpdkNetDevice :=
  { dev with m_ringSize := ringSize }

/-- Number of RX ring descriptors. -/
def RTE_TEST_RX_DESC_DEFAULT : Nat := 1024

/-- Number of TX ring descriptors. -/
def RTE_TEST_TX_DESC_DEFAULT : Nat := 1024

/-- The maximum packet burst size. -/
def MAX_PKT_BURST : Nat := 32

/-- The cache size for the memory pool. -/
def MEMPOOL_CACHE_SIZE : Nat := 256

/-- The number of buffers `nbMbufs` that `DpdkNetDevice::InitDpdk` asks for,
`RTE_MAX (nbPorts * (nbRxd + nbTxd + MAX_PKT_BURST + nbLcores * MEMPOOL_CACHE_SIZE), 8192U)`
with `nbLcores = 1`, in 32-bit unsigned arithmetic. -/
def InitDpdk.nbMbufs (nbPorts : Nat) : Nat :=
  max ((nbPorts % 2 ^ 32 *
      (RTE_TEST_RX_DESC_DEFAULT + RTE_TEST_TX_DESC_DEFAULT + MAX_PKT_BURST + 1 * MEMPOOL_CACHE_SIZE))
    % 2 ^ 32) 8192

/-- Modelled from the spec: creation of the Packet Buffer Pool, a "fixed-capacity
pool of reusable fixed-size packet buffers": `n` free buffers, each with a
data room of `data_room_size` bytes (a 16-bit quantity). -/
def rte_pktmbuf_pool_create (n : Nat) (data_room_size : Nat) : rte_mempool :=
  { data_room_size := data_room_size
    free := (List.range n).map (fun i =>
      { addr := i, data_len := 0, pkt_len := 0,
        data := List.replicate (data_room_size % 2 ^ 16) 0 }) }

/-- Source function `DpdkNetDevice::InitDpdk`, on a host with `nbPorts` Ethernet ports and
with `bufSize` for the library constant `RTE_MBUF_DEFAULT_BUF_SIZE`: the flag is
reset, the pool of `nbMbufs` buffers is created, and then both rings are
created with `m_ringSize` converted to `unsigned`.  `none` is the exit taken
when there is no port; the calls into the library are taken to succeed. -/
def DpdkNetDevice.InitDpdk (dev : DpdkNetDevice) (nbPorts : Nat) (bufSize : Nat) :
    Option DpdkNetDevice :=
  if nbPorts = 0 then none
  else
    some { dev with
      m_forceQuit := false
      m_mempool := rte_pktmbuf_pool_create (InitDpdk.nbMbufs nbPorts) bufSize
      m_txRing := rte_ring_create (dev.m_ringSize % (2 : Int) ^ 32).toNat
      m_rxRing := rte_ring_create (dev.m_ringSize % (2 : Int) ^ 32).toNat }

/-- Source function `DpdkNetDevice::Write`: the result and the device afterwards. -/
def DpdkNetDevice.Write (dev : DpdkNetDevice) (buffer : List Byte) (length : Nat) :
    Int × DpdkNetDevice :=
  match rte_pktmbuf_alloc dev.m_mempool with
  | none => (-1, dev)
  | some (pkt, pool) =>
    let pkt := { pkt with
      data_len := length % 2 ^ 16
      pkt_len := length % 2 ^ 32
      data := memcpy pkt.data buffer length }
    match rte_ring_enqueue dev.m_txRing pkt with
    | none => (-1, { dev with m_mempool := pool })
    | some ring => (toSSize length, { dev with m_mempool := pool, m_txRing := ring })

/-- Source function `DpdkNetDevice::Read`: the result, the device afterwards and the caller's
destination afterwards. -/
def DpdkNetDevice.Read (dev : DpdkNetDevice) (buffer : List Byte) :
    Int × DpdkNetDevice × List Byte :=
  match rte_ring_dequeue dev.m_rxRing with
  | none => (-1, dev, buffer)
  | some (pkt, ring) =>
    let buffer :=
      match rte_pktmbuf_read pkt 0 pkt.pkt_len with
      | none => buffer
      | some dataBuffer => memcpy buffer dataBuffer pkt.pkt_len
    let length := toInt32 pkt.pkt_len
    (length, { dev with m_rxRing := ring, m_mempool := rte_pktmbuf_free pkt dev.m_mempool }, buffer)

/-! ## The hardware port -/

/-- Modelled from the spec: the behaviour of the NIC behind
`rxBurst(portId, queueId, maxCount) -> sequence<PacketBuffer>` and
`txBurst(portId, queueId, buffers) -> count actually accepted`.  `txAccept i bufs`
is how many buffers the hardware is willing to take at the `i`-th transmit
call when offered `bufs`; `rxArrive i` are the buffers that have arrived when
the `i`-th receive call is made. -/
structure Nic where
  txAccept : Nat → List rte_mbuf → Nat
  rxArrive : Nat → List rte_mbuf

/-- The record of the hardware calls made so far on the port: each transmit
call with the buffers offered and the count accepted, each receive call with
the buffers it returned. -/
structure PortLog where
  txCalls : List (List rte_mbuf × Nat)
  rxCalls : List (List rte_mbuf)
deriving DecidableEq, Repr

/-- Number of hardware calls (rx-burst and tx-burst) made so far. -/
def PortLog.clock (p : PortLog) : Nat := p.txCalls.length + p.rxCalls.length

/-- The buffers the hardware has accepted for transmission, in order. -/
def PortLog.sent (p : PortLog) : List rte_mbuf :=
  (p.txCalls.map (fun c => c.1.take c.2)).flatten

/-- The buffers the hardware has handed over on reception, in order. -/
def PortLog.received (p : PortLog) : List rte_mbuf := p.rxCalls.flatten

/-- Modelled from the spec: `txBurst`, the hardware accepts a leading part of the
buffers offered and reports its size. -/
def rte_eth_tx_burst (nic : Nic) (p : PortLog) (tx_pkts : List rte_mbuf) : Nat × PortLog :=
  let ret := min (nic.txAccept p.txCalls.length tx_pkts) tx_pkts.length
  (ret, { p with txCalls := p.txCalls ++ [(tx_pkts, ret)] })

/-- Modelled from the spec: `rxBurst`, at most `nb_pkts` newly arrived buffers. -/
def rte_eth_rx_burst (nic : Nic) (p : PortLog) (nb_pkts : Nat) : List rte_mbuf × PortLog :=
  let bufs := (nic.rxArrive p.rxCalls.length).take nb_pkts
  (bufs, { p with rxCalls := p.rxCalls ++ [bufs] })

/-- The device together with the record of its port. -/
structure Host where
  dev : DpdkNetDevice
  port : PortLog
deriving DecidableEq, Repr

/-- The do-while loop of `DpdkNetDevice::HandleTx`: `txBuffer` is the array of
the `nbTx` handles not yet accepted.  The loop has no bound of its own; `none`
when the fuel runs out. -/
def HandleTx.retry (nic : Nic) : Nat → List rte_mbuf → PortLog → Option PortLog
  | 0, _, _ => none
  | fuel + 1, txBuffer, p =>
    let r := rte_eth_tx_burst nic p txBuffer
    let txBuffer := txBuffer.drop r.1
    if txBuffer.length > 0 then HandleTx.retry nic fuel txBuffer r.2 else some r.2

/-- Source function `DpdkNetDevice::HandleTx`. -/
def DpdkNetDevice.HandleTx (nic : Nic) (fuel : Nat) (h : Host) : Option Host :=
  let d := rte_ring_dequeue_burst h.dev.m_txRing MAX_TX_BURST
  let dev := { h.dev with m_txRing := d.2 }
  if d.1.length = 0 then some { h with dev := dev }
  else (HandleTx.retry nic fuel d.1 h.port).map (fun p => { dev := dev, port := p })

/-- Source function `DpdkNetDevice::HandleRx`. -/
def DpdkNetDevice.HandleRx (nic : Nic) (h : Host) : Host :=
  let r := rte_eth_rx_burst nic h.port MAX_RX_BURST
  if r.1.length ≠ 0 then
    let e := rte_ring_enqueue_burst h.dev.m_rxRing r.1
    { dev := { h.dev with m_rxRing := e.2 }, port := r.2 }
  else { h with port := r.2 }

/-- The value of the volatile flag `m_forceQuit` when the loop condition of
`LaunchCore` reads it after `t` hardware calls.  The flag is set on entry, or
another thread (`SignalHandler`, `StopDevice`) sets it at an instant after the
`signalAt`-th hardware call and before the next one; `late` tells whether that
instant comes after the reading of the loop condition made in the same
interval (there is at most one, every iteration making a hardware call). -/
def forceQuitAt (dev : DpdkNetDevice) (signalAt : Nat) (late : Bool) (t : Nat) : Bool :=
  dev.m_forceQuit || decide (signalAt < t) || (decide (signalAt = t) && !late)

/-- The while loop of `DpdkNetDevice::LaunchCore`. -/
def LaunchCore.loop (nic : Nic) (signalAt : Nat) (late : Bool) (txFuel : Nat) :
    Nat → Host → Option Host
  | 0, _ => none
  | fuel + 1, h =>
    if forceQuitAt h.dev signalAt late h.port.clock then some h
    else
      match DpdkNetDevice.HandleTx nic txFuel h with
      | none => none
      | some h1 => LaunchCore.loop nic signalAt late txFuel fuel (DpdkNetDevice.HandleRx nic h1)

/-- Source function `DpdkNetDevice::LaunchCore`, run on logical core `lcoreId`; the pause of
`usleep` at the end of each iteration takes no part in the state. -/
def DpdkNetDevice.LaunchCore (nic : Nic) (signalAt : Nat) (late : Bool) (lcoreId : Nat)
    (fuel : Nat) (h : Host) : Option (Int × Host) :=
  if lcoreId ≠ 1 then some (0, h)
  else (LaunchCore.loop nic signalAt late fuel fuel h).map (fun h1 => (0, h1))

/-! ## The reader task -/

/-- The members of `DpdkNetDeviceReader`; `m_device` tells whether a device has
been attached (the pointer is non-null). -/
structure DpdkNetDeviceReader where
  m_stop : Bool
  m_bufferSize : Nat
  m_device : Bool
deriving DecidableEq, Repr

/-- Source structure `DpdkNetDeviceReader::Data`: `m_buf` is `none` for the null pointer. -/
structure DpdkNetDeviceReader.Data where
  m_buf : Option (List Byte)
  m_len : Int
deriving DecidableEq, Repr

/-- The reader as `DpdkNetDevice::StartDevice` sets it up for a device of the
given MTU. -/
def DpdkNetDevice.StartDevice (m_mtu : Nat) : DpdkNetDeviceReader :=
  { m_stop := false, m_bufferSize := (m_mtu + 22) % 2 ^ 32, m_device := true }

/-- The number of bytes `DpdkNetDevice::Read` writes to the caller's
destination: the `pkt_len` of the head of the inbound ring, nothing when the
ring is empty. -/
def DpdkNetDevice.Read.copied (dev : DpdkNetDevice) : Nat :=
  match dev.m_rxRing.items with
  | [] => 0
  | pkt :: _ => pkt.pkt_len

/-- Source function `DpdkNetDeviceReader::DoRead`: the data read and the device afterwards.
The destination handed to `Read` is a fresh block of `m_bufferSize` bytes
(taken to be zero-filled) and `Read` copies without looking at its size: the
result is `none` when `Read` writes past the end of the block, where the
language defines no behaviour. -/
def DpdkNetDeviceReader.DoRead (r : DpdkNetDeviceReader) (dev : DpdkNetDevice) :
    Option (DpdkNetDeviceReader.Data × DpdkNetDevice) :=
  let buf := List.replicate r.m_bufferSize (0 : Byte)
  if r.m_device && decide (r.m_bufferSize < DpdkNetDevice.Read.copied dev) then none
  else
    let res : Int × DpdkNetDevice × List Byte :=
      if r.m_device then dev.Read buf else (0, dev, buf)
    if res.1 ≤ 0 then some ({ m_buf := none, m_len := res.1 }, res.2.1)
    else some ({ m_buf := some res.2.2, m_len := res.1 }, res.2.1)

/-- The reader task with the device it reads from and the record of the
invocations of `m_readCallback` (buffer and length); `running` is false once
the loop of `Run` has been left. -/
structure ReaderTask where
  reader : DpdkNetDeviceReader
  running : Bool
  delivered : List (List Byte × Int)
deriving DecidableEq, Repr

/-- One evaluation of the loop condition and body of `DpdkNetDeviceReader::Run`;
`none` when `DoRead` has no defined behaviour. -/
def DpdkNetDeviceReader.Run.iteration (t : ReaderTask) (dev : DpdkNetDevice) :
    Option (ReaderTask × DpdkNetDevice) :=
  if !t.running then some (t, dev)
  else if t.reader.m_stop then some ({ t with running := false }, dev)
  else
    match t.reader.DoRead dev with
    | none => none
    | some r =>
      if r.1.m_len = 0 then some ({ t with running := false }, r.2)
      else if r.1.m_len > 0 then
        some ({ t with delivered := t.delivered ++ [(r.1.m_buf.getD [], r.1.m_len)] }, r.2)
      else some (t, r.2)

/-- Source function `DpdkNetDeviceReader::Run` on its own (nothing else touching the device):
`none` when the loop is still running after `fuel` iterations, or when a read
has no defined behaviour. -/
def DpdkNetDeviceReader.Run : Nat → ReaderTask → DpdkNetDevice → Option (ReaderTask × DpdkNetDevice)
  | 0, _, _ => none
  | fuel + 1, t, dev =>
    match DpdkNetDeviceReader.Run.iteration t dev with
    | none => none
    | some r => if r.1.running then DpdkNetDeviceReader.Run fuel r.1 r.2 else some r

/-! ## Executions: the simulation side and the hardware side taking turns

The rings are the only state the two sides share, and each ring operation is
one atomic step, so an execution is a sequence of whole operations. -/

/-- A frame handed to `Write`: the caller's buffer and the length. -/
abbrev Frame := List Byte × Nat

/-- The steps of the transmit path: the simulation writes a frame, or the
polling loop runs `HandleTx`. -/
inductive TxOp where
  | write (buffer : List Byte) (length : Nat)
  | handleTx
deriving DecidableEq, Repr

/-- The frames written in a sequence of transmit-path steps. -/
def TxOp.frames : List TxOp → List Frame
  | [] => []
  | TxOp.write b l :: ops => (b, l) :: TxOp.frames ops
  | TxOp.handleTx :: ops => TxOp.frames ops

/-- Runs a sequence of transmit-path steps, collecting the results of the
writes; `none` when a `HandleTx` does not return within `fuel` transmit calls. -/
def runTx (nic : Nic) (fuel : Nat) : List TxOp → Host × List Int → Option (Host × List Int)
  | [], s => some s
  | TxOp.write b l :: ops, s =>
    let r := s.1.dev.Write b l
    runTx nic fuel ops ({ s.1 with dev := r.2 }, s.2 ++ [r.1])
  | TxOp.handleTx :: ops, s =>
    match DpdkNetDevice.HandleTx nic fuel s.1 with
    | none => none
    | some h => runTx nic fuel ops (h, s.2)

/-- Writes a sequence of frames one after the other: the results and the
device afterwards. -/
def writeAll : List Frame → DpdkNetDevice → List Int × DpdkNetDevice
  | [], dev => ([], dev)
  | f :: fs, dev =>
    let r := dev.Write f.1 f.2
    let rs := writeAll fs r.2
    (r.1 :: rs.1, rs.2)

/-- The drain step of `HandleTx` alone: a dequeue burst of size `n` from the
outbound ring. -/
def DpdkNetDevice.drainTx (dev : DpdkNetDevice) (n : Nat) : List rte_mbuf × DpdkNetDevice :=
  let d := rte_ring_dequeue_burst dev.m_txRing n
  (d.1, { dev with m_txRing := d.2 })

/-- The scenario of the ring-capacity example: write the frames `fs1`, then `f`,
drain the outbound ring with a dequeue burst of size `n`, write the frames
`fs2`, then `g`.  The results: of the first writes, of the write of `f`, the
number of handles the drain removed, the results of the further writes and of
the write of `g`. -/
def ringScenario (dev : DpdkNetDevice) (fs1 : List Frame) (f : Frame) (n : Nat)
    (fs2 : List Frame) (g : Frame) : List Int × Int × Nat × List Int × Int :=
  let w1 := writeAll fs1 dev
  let w2 := w1.2.Write f.1 f.2
  let d := w2.2.drainTx n
  let w3 := writeAll fs2 d.2
  let w4 := w3.2.Write g.1 g.2
  (w1.1, w2.1, d.1.length, w3.1, w4.1)

/-- What the hardware sees of a transmitted buffer: payload and both lengths. -/
def rte_mbuf.view (m : rte_mbuf) : List Byte × Nat × Nat := (m.payload, m.pkt_len, m.data_len)

/-- What a written frame should look like on transmission. -/
def Frame.view (f : Frame) : List Byte × Nat × Nat := (f.1.take f.2, f.2, f.2)

/-- A frame that `Write` can store: the caller's buffer holds `length` bytes
and they fit a buffer of the pool. -/
def Frame.fits (mp : rte_mempool) (f : Frame) : Bool :=
  decide (f.2 ≤ f.1.length) && decide (f.2 ≤ rte_pktmbuf_data_room_size mp)

/-- The buffer `Write` enqueues when it has taken `m` from the pool. -/
def Write.pkt (m : rte_mbuf) (buffer : List Byte) (length : Nat) : rte_mbuf :=
  { addr := m.addr, data_len := length % 2 ^ 16, pkt_len := length % 2 ^ 32,
    data := memcpy m.data buffer length }

/-- A run of transmit calls on the buffers `bufs`: every call offers exactly
the buffers not accepted by the calls before it and accepts at least one and
at most all of them, and nothing is left at the end. -/
def retryTrace : List rte_mbuf → List (List rte_mbuf × Nat) → Prop
  | bufs, [] => bufs = []
  | bufs, c :: cs => c.1 = bufs ∧ 1 ≤ c.2 ∧ c.2 ≤ bufs.length ∧ retryTrace (bufs.drop c.2) cs

/-- The hardware accepts at least one buffer whenever it is offered some. -/
def Nic.progress (nic : Nic) : Prop :=
  ∀ i bufs, bufs ≠ [] → 1 ≤ nic.txAccept i bufs

/-- The hardware does not refuse a non-empty offer forever: buffers offered at
the `i`-th transmit call, and offered again as long as none is taken, have at
least one of them taken at some call `j`.  A transmit call may well take
nothing. -/
def Nic.yields (nic : Nic) : Prop :=
  ∀ i bufs, bufs ≠ [] → ∃ j, i ≤ j ∧ 1 ≤ nic.txAccept j bufs

/-- The steps of the receive path: the polling loop runs `HandleRx`, or the
reader task runs one iteration of its loop. -/
inductive RxOp where
  | handleRx
  | reader
deriving DecidableEq, Repr

/-- The receive path: device, port and reader task. -/
structure RxSystem where
  host : Host
  task : ReaderTask
deriving DecidableEq, Repr

/-- One step of the receive path; `none` when an iteration of the reader has no
defined behaviour. -/
def rxStep (nic : Nic) (s : RxSystem) : RxOp → Option RxSystem
  | RxOp.handleRx => some { s with host := DpdkNetDevice.HandleRx nic s.host }
  | RxOp.reader =>
    match DpdkNetDeviceReader.Run.iteration s.task s.host.dev with
    | none => none
    | some r => some { host := { s.host with dev := r.2 }, task := r.1 }

/-- Runs a sequence of receive-path steps. -/
def rxRun (nic : Nic) : List RxOp → RxSystem → Option RxSystem
  | [], s => some s
  | op :: ops, s =>
    match rxStep nic s op with
    | none => none
    | some s1 => rxRun nic ops s1

/-- No `HandleRx` of the sequence finds fewer free slots in the inbound ring
than the burst it obtains. -/
def rxNoOverflow (nic : Nic) : List RxOp → RxSystem → Bool
  | [], _ => true
  | RxOp.handleRx :: ops, s =>
    decide (((rte_eth_rx_burst nic s.host.port MAX_RX_BURST).1).length
        ≤ rte_ring_free_count s.host.dev.m_rxRing)
      && rxNoOverflow nic ops { s with host := DpdkNetDevice.HandleRx nic s.host }
  | RxOp.reader :: ops, s =>
    match rxStep nic s RxOp.reader with
    | none => true
    | some s1 => rxNoOverflow nic ops s1

/-- The number of handles in the inbound ring after a sequence of receive-path
steps (0 when the sequence has no defined outcome). -/
def rxBacklog (nic : Nic) (ops : List RxOp) (s : RxSystem) : Nat :=
  match rxRun nic ops s with
  | none => 0
  | some s1 => s1.host.dev.m_rxRing.items.length

/-- What the callback sees of a delivery: the first `len` bytes of the buffer,
and the length. -/
def deliveredView (d : List Byte × Int) : List Byte × Int := (d.1.take d.2.toNat, d.2)

/-- What a received buffer should look like on delivery. -/
def rte_mbuf.frame (m : rte_mbuf) : List Byte × Int := (m.payload, (m.pkt_len : Int))

/-! ## Concrete data for evaluation -/

/-- A free buffer of 64 bytes at address `a`. -/
def mkBuf (a : Nat) : rte_mbuf := { addr := a, data_len := 0, pkt_len := 0, data := List.replicate 64 0 }

/-- A received buffer at address `a` carrying the frame `bytes`. -/
def mkFrame (a : Nat) (bytes : List Byte) : rte_mbuf :=
  { addr := a, data_len := bytes.length, pkt_len := bytes.length, data := bytes }

/-- A pool of `n` free 64-byte buffers at addresses `100, 101, ...`. -/
def mkPool (n : Nat) : rte_mempool :=
  { data_room_size := 64, free := (List.range n).map (fun i => mkBuf (100 + i)) }

/-- A device with empty rings of size `ringSize` and `n` free buffers left in
the pool. -/
def mkDevice (ringSize : Nat) (n : Nat) : DpdkNetDevice :=
  { m_forceQuit := false, m_ringSize := ringSize, m_txRing := rte_ring_create ringSize,
    m_rxRing := rte_ring_create ringSize, m_mempool := mkPool n }

/-- A device with rings of size 4 whose inbound ring holds two received
frames. -/
def rxDevice2 : DpdkNetDevice :=
  { mkDevice 4 2 with m_rxRing := { capacity := 4, items := [mkFrame 1 [5, 6], mkFrame 2 [7]] } }

/-- A port on which no call has been made yet. -/
def PortLog.fresh : PortLog := { txCalls := [], rxCalls := [] }

/-- A device with three frames written to its outbound ring, and a fresh port. -/
def txHost3 : Host :=
  { dev := (writeAll [([1, 2], 2), ([3], 1), ([4, 5, 6], 3)] (mkDevice 4 5)).2, port := PortLog.fresh }

/-- A frame of `n` zero bytes to write. -/
def zeros (n : Nat) : Frame := (List.replicate n 0, n)

/-- Hardware on which a zero-length buffer and then a one-byte frame arrive
at the first receive call, and nothing afterwards. -/
def nicRunt : Nic :=
  { txAccept := fun _ bufs => bufs.length
    rxArrive := fun i => if i = 0 then [mkFrame 1 [], mkFrame 2 [7]] else [] }

/-- Hardware on which a two-byte frame and then a one-byte frame arrive at the
first receive call, and a three-byte frame at the third. -/
def nicThree : Nic :=
  { txAccept := fun _ bufs => bufs.length
    rxArrive := fun i =>
      if i = 0 then [mkFrame 1 [5, 6], mkFrame 2 [7]]
      else if i = 2 then [mkFrame 3 [8, 9, 10]] else [] }

/-- Hardware on which a frame of 70 bytes arrives at the first receive call. -/
def nicJumbo : Nic :=
  { txAccept := fun _ bufs => bufs.length
    rxArrive := fun i => if i = 0 then [mkFrame 1 (List.replicate 70 9)] else [] }

/-- Hardware on which one frame arrives at the first receive call. -/
def nicOne : Nic :=
  { txAccept := fun _ bufs => bufs.length
    rxArrive := fun i => if i = 0 then [mkFrame 2 [7]] else [] }

/-- The receive path right after start: empty rings of size 4, a running
reader with a 64-byte buffer, nothing received or delivered yet. -/
def rxStart : RxSystem :=
  { host := { dev := mkDevice 4 2, port := PortLog.fresh }
    task := { reader := DpdkNetDevice.StartDevice 42, running := true, delivered := [] } }

/-- A device whose inbound ring of size 1 is full, with two free buffers in
the pool, and a fresh port. -/
def rxFullHost : Host :=
  { dev := { mkDevice 1 2 with m_rxRing := { capacity := 1, items := [mkFrame 1 [5, 6]] } }
    port := PortLog.fresh }

/-- Hardware that is busy at every other transmit call: it takes nothing at the
calls of even index and one buffer at the calls of odd index. -/
def nicStutter : Nic :=
  { txAccept := fun i _ => if i % 2 = 0 then 0 else 1, rxArrive := fun _ => [] }

/-- Hardware that never takes a buffer. -/
def nicDead : Nic := { txAccept := fun _ _ => 0, rxArrive := fun _ => [] }

/-- Hardware that takes one buffer per transmit call and receives nothing. -/
def nicOneByOne : Nic := { txAccept := fun _ _ => 1, rxArrive := fun _ => [] }

end ns3

/-! # Theorems -/

namespace ns3

/-! ## Machine integers and memcpy -/

theorem toSigned_of_lt (w n : Nat) (hw : 0 < w) (h : n < 2 ^ (w - 1)) : toSigned w n = (n : Int) := by
  have hlt : 2 ^ (w - 1) < 2 ^ w := Nat.pow_lt_pow_right (by norm_num) (by omega)
  have hmod : n % 2 ^ w = n := Nat.mod_eq_of_lt (by omega)
  simp [toSigned, hmod, h]

theorem toInt32_of_lt (n : Nat) (h : n < 2 ^ 31) : toInt32 n = (n : Int) :=
  toSigned_of_lt 32 n (by norm_num) h

theorem toSSize_of_lt (n : Nat) (h : n < 2 ^ 63) : toSSize n = (n : Int) :=
  toSigned_of_lt 64 n (by norm_num) h

theorem memcpy_take (dst src : List Byte) (n : Nat) (h : n ≤ src.length) :
    (memcpy dst src n).take n = src.take n := by
  simp [memcpy, List.take_append_eq_append_take, List.length_take, Nat.min_eq_left h]

/-! ## Write and Read, one call -/

theorem rte_ring_enqueue_full (r : rte_ring) (m : rte_mbuf) (h : rte_ring_full r = true) :
    rte_ring_enqueue r m = none := by
  simp [rte_ring_full] at h
  simp [rte_ring_enqueue]; omega

theorem rte_ring_enqueue_not_full (r : rte_ring) (m : rte_mbuf) (h : rte_ring_full r = false) :
    rte_ring_enqueue r m = some { r with items := r.items ++ [m] } := by
  simp [rte_ring_full] at h
  simp [rte_ring_enqueue]; omega

/-- Claim C1: when the outbound ring is full, or the pool has no free buffer,
`Write` returns -1 for every buffer and length and the outbound ring is the
same ring afterwards: same capacity, same handles in the same order. -/
theorem Write_full_or_exhausted (dev : DpdkNetDevice) (buffer : List Byte) (length : Nat)
    (h : rte_ring_full dev.m_txRing = true ∨ dev.m_mempool.free = []) :
    (dev.Write buffer length).1 = -1 ∧ (dev.Write buffer length).2.m_txRing = dev.m_txRing := by
  unfold DpdkNetDevice.Write
  cases hfree : dev.m_mempool.free with
  | nil => simp [rte_pktmbuf_alloc, hfree]
  | cons m rest =>
    rcases h with h | h
    · simp [rte_pktmbuf_alloc, hfree, rte_ring_enqueue_full _ _ h]
    · simp [hfree] at h

/-- Witness of C1, both failure conditions at concrete devices: a full ring of size 1
with a free buffer left, and an empty pool. -/
theorem Write_full_or_exhausted_witness :
    (((writeAll [([1], 1)] (mkDevice 1 2)).2.Write [7, 8] 2).1 = -1 ∧
      ((writeAll [([1], 1)] (mkDevice 1 2)).2.Write [7, 8] 2).2.m_txRing
        = (writeAll [([1], 1)] (mkDevice 1 2)).2.m_txRing) ∧
    (((mkDevice 4 0).Write [7, 8] 2).1 = -1 ∧
      ((mkDevice 4 0).Write [7, 8] 2).2.m_txRing = (mkDevice 4 0).m_txRing) :=
  ⟨Write_full_or_exhausted _ [7, 8] 2 (Or.inl (by decide)),
   Write_full_or_exhausted _ [7, 8] 2 (Or.inr (by decide))⟩

/-- Claim C2: when the inbound ring is empty, `Read` returns -1 at once (it is a
total function with a single dequeue attempt) and the device, hence the
inbound ring and the pool, and the caller's destination are unchanged. -/
theorem Read_empty (dev : DpdkNetDevice) (buffer : List Byte)
    (h : rte_ring_empty dev.m_rxRing = true) :
    dev.Read buffer = (-1, dev, buffer) := by
  have hnil : dev.m_rxRing.items = [] := by
    simpa [rte_ring_empty, List.isEmpty_iff] using h
  simp [DpdkNetDevice.Read, rte_ring_dequeue, hnil]

/-- Witness of C2 at a freshly initialised device. -/
theorem Read_empty_witness :
    (mkDevice 4 2).Read [9, 9] = (-1, mkDevice 4 2, [9, 9]) :=
  Read_empty (mkDevice 4 2) [9, 9] (by decide)

/-- Claim C3: with a free buffer in the pool and a ring that is not full, `Write`
of `length` bytes (held by the caller's buffer and within the capacity of a
pool buffer) returns `length`, takes the first free buffer from the pool, and
appends one handle, that buffer, at the tail of the outbound ring: its two
length fields are `length` and its payload is the first `length` bytes of the
caller's buffer.  The inbound ring is untouched. -/
theorem Write_success (dev : DpdkNetDevice) (buffer : List Byte) (length : Nat)
    (hpool : dev.m_mempool.free ≠ [])
    (hring : rte_ring_full dev.m_txRing = false)
    (hbuf : length ≤ buffer.length)
    (hcap : length ≤ rte_pktmbuf_data_room_size dev.m_mempool) :
    ∃ pkt : rte_mbuf,
      (dev.Write buffer length).1 = (length : Int) ∧
      (dev.Write buffer length).2.m_mempool.free = dev.m_mempool.free.tail ∧
      (dev.Write buffer length).2.m_mempool.free.length + 1 = dev.m_mempool.free.length ∧
      dev.m_mempool.free.head?.map rte_mbuf.addr = some pkt.addr ∧
      (dev.Write buffer length).2.m_txRing.items = dev.m_txRing.items ++ [pkt] ∧
      (dev.Write buffer length).2.m_txRing.capacity = dev.m_txRing.capacity ∧
      (dev.Write buffer length).2.m_rxRing = dev.m_rxRing ∧
      pkt.pkt_len = length ∧ pkt.data_len = length ∧
      pkt.payload = buffer.take length := by
  have h16 : length < 2 ^ 16 :=
    lt_of_le_of_lt hcap (by unfold rte_pktmbuf_data_room_size; exact Nat.mod_lt _ (by norm_num))
  have hm16 : length % 2 ^ 16 = length := Nat.mod_eq_of_lt h16
  have hm32 : length % 2 ^ 32 = length := Nat.mod_eq_of_lt (by omega)
  have hret : toSSize length = (length : Int) := toSSize_of_lt length (by omega)
  cases hfree : dev.m_mempool.free with
  | nil => exact absurd hfree hpool
  | cons m rest =>
    refine ⟨{ addr := m.addr, data_len := length, pkt_len := length,
              data := memcpy m.data buffer length }, ?_⟩
    simp only [DpdkNetDevice.Write, rte_pktmbuf_alloc, hfree, rte_ring_enqueue_not_full _ _ hring,
      hm16, hm32, hret]
    simp [rte_mbuf.payload, memcpy_take _ _ _ hbuf]

/-- Witness of C3 at a concrete device: three bytes out of a four-byte buffer. -/
theorem Write_success_witness :
    ∃ pkt : rte_mbuf,
      ((mkDevice 4 2).Write [1, 2, 3, 4] 3).1 = ((3 : Nat) : Int) ∧
      ((mkDevice 4 2).Write [1, 2, 3, 4] 3).2.m_mempool.free = (mkDevice 4 2).m_mempool.free.tail ∧
      ((mkDevice 4 2).Write [1, 2, 3, 4] 3).2.m_mempool.free.length + 1
        = (mkDevice 4 2).m_mempool.free.length ∧
      (mkDevice 4 2).m_mempool.free.head?.map rte_mbuf.addr = some pkt.addr ∧
      ((mkDevice 4 2).Write [1, 2, 3, 4] 3).2.m_txRing.items = (mkDevice 4 2).m_txRing.items ++ [pkt] ∧
      ((mkDevice 4 2).Write [1, 2, 3, 4] 3).2.m_txRing.capacity = (mkDevice 4 2).m_txRing.capacity ∧
      ((mkDevice 4 2).Write [1, 2, 3, 4] 3).2.m_rxRing = (mkDevice 4 2).m_rxRing ∧
      pkt.pkt_len = 3 ∧ pkt.data_len = 3 ∧
      pkt.payload = ([1, 2, 3, 4] : List Byte).take 3 :=
  Write_success (mkDevice 4 2) [1, 2, 3, 4] 3 (by decide) (by decide) (by decide) (by decide)

theorem sane_pkt_len_lt (m : rte_mbuf) (h : m.sane = true) : m.pkt_len < 2 ^ 16 := by
  simp [rte_mbuf.sane] at h
  omega

/-- Claim C4: when the inbound ring holds the handles `pkt :: rest` (`pkt` a
well-formed buffer), `Read` returns the logical length of `pkt`, removes
exactly `pkt` from the ring and leaves `rest` in order, overwrites the first
`pkt_len` bytes of the caller's destination with the payload of `pkt`, and
gives `pkt` back to the pool once: the pool's free buffers are `pkt` followed
by the former ones, one more than before. -/
theorem Read_nonempty (dev : DpdkNetDevice) (buffer : List Byte) (pkt : rte_mbuf)
    (rest : List rte_mbuf)
    (hring : dev.m_rxRing.items = pkt :: rest)
    (hsane : pkt.sane = true) :
    (dev.Read buffer).1 = (pkt.pkt_len : Int) ∧
    (dev.Read buffer).2.1.m_rxRing.items = rest ∧
    (dev.Read buffer).2.1.m_rxRing.capacity = dev.m_rxRing.capacity ∧
    (dev.Read buffer).2.2 = pkt.payload ++ buffer.drop pkt.pkt_len ∧
    (dev.Read buffer).2.1.m_mempool.free = pkt :: dev.m_mempool.free ∧
    (dev.Read buffer).2.1.m_mempool.free.length = dev.m_mempool.free.length + 1 ∧
    (dev.Read buffer).2.1.m_txRing = dev.m_txRing := by
  have hlt := sane_pkt_len_lt pkt hsane
  have hret : toInt32 pkt.pkt_len = (pkt.pkt_len : Int) := toInt32_of_lt _ (by omega)
  simp [DpdkNetDevice.Read, rte_ring_dequeue, hring, rte_pktmbuf_read, rte_pktmbuf_free, hret,
    memcpy, rte_mbuf.payload, List.take_take]

/-- Witness of C4 at a concrete device holding two received frames. -/
theorem Read_nonempty_witness :
    ((rxDevice2).Read [0, 0, 0, 0]).1 = ((mkFrame 1 [5, 6]).pkt_len : Int) ∧
    ((rxDevice2).Read [0, 0, 0, 0]).2.1.m_rxRing.items = [mkFrame 2 [7]] ∧
    ((rxDevice2).Read [0, 0, 0, 0]).2.1.m_rxRing.capacity = (rxDevice2).m_rxRing.capacity ∧
    ((rxDevice2).Read [0, 0, 0, 0]).2.2
      = (mkFrame 1 [5, 6]).payload ++ ([0, 0, 0, 0] : List Byte).drop (mkFrame 1 [5, 6]).pkt_len ∧
    ((rxDevice2).Read [0, 0, 0, 0]).2.1.m_mempool.free = mkFrame 1 [5, 6] :: (rxDevice2).m_mempool.free ∧
    ((rxDevice2).Read [0, 0, 0, 0]).2.1.m_mempool.free.length = (rxDevice2).m_mempool.free.length + 1 ∧
    ((rxDevice2).Read [0, 0, 0, 0]).2.1.m_txRing = (rxDevice2).m_txRing :=
  Read_nonempty rxDevice2 [0, 0, 0, 0] (mkFrame 1 [5, 6]) [mkFrame 2 [7]] (by decide) (by decide)

/-! ## HandleTx -/

theorem tx_burst_ret (nic : Nic) (hprog : nic.progress) (p : PortLog) (bufs : List rte_mbuf)
    (hne : bufs ≠ []) :
    1 ≤ (rte_eth_tx_burst nic p bufs).1 ∧ (rte_eth_tx_burst nic p bufs).1 ≤ bufs.length := by
  have h1 := hprog p.txCalls.length bufs hne
  have h2 : 1 ≤ bufs.length := by
    cases bufs with
    | nil => exact absurd rfl hne
    | cons a l => simp
  simp only [rte_eth_tx_burst]
  omega

theorem retry_spec (nic : Nic) (hprog : nic.progress) :
    ∀ (fuel : Nat) (bufs : List rte_mbuf) (p : PortLog), bufs ≠ [] → bufs.length ≤ fuel →
      ∃ calls : List (List rte_mbuf × Nat),
        HandleTx.retry nic fuel bufs p = some { p with txCalls := p.txCalls ++ calls } ∧
        retryTrace bufs calls ∧ calls ≠ [] ∧ calls.length ≤ bufs.length ∧
        (calls.map Prod.snd).sum = bufs.length ∧
        (calls.map (fun c => c.1.take c.2)).flatten = bufs := by
  intro fuel
  induction fuel with
  | zero =>
    intro bufs p hne hlen
    cases bufs with
    | nil => exact absurd rfl hne
    | cons a l => simp at hlen
  | succ fuel ih =>
    intro bufs p hne hlen
    obtain ⟨hr1, hr2⟩ := tx_burst_ret nic hprog p bufs hne
    have hp2 : (rte_eth_tx_burst nic p bufs).2
        = { p with txCalls := p.txCalls ++ [(bufs, (rte_eth_tx_burst nic p bufs).1)] } := rfl
    generalize hret : (rte_eth_tx_burst nic p bufs).1 = ret at hr1 hr2 hp2
    by_cases hrest : (bufs.drop ret).length > 0
    · have hne2 : bufs.drop ret ≠ [] := by
        intro h0; rw [h0] at hrest; simp at hrest
      have hlen2 : (bufs.drop ret).length ≤ fuel := by
        rw [List.length_drop]; omega
      obtain ⟨calls, hrun, htr, _, hcl, hsum, hflat⟩ :=
        ih (bufs.drop ret) (rte_eth_tx_burst nic p bufs).2 hne2 hlen2
      refine ⟨(bufs, ret) :: calls, ?_, ?_, by simp, ?_, ?_, ?_⟩
      · simp only [HandleTx.retry, hret, hrest, if_true]
        rw [hrun, hp2]
        simp
      · exact ⟨rfl, hr1, hr2, htr⟩
      · rw [List.length_drop] at hcl
        simp only [List.length_cons]
        omega
      · rw [List.length_drop] at hsum
        simp only [List.map_cons, List.sum_cons, hsum]
        omega
      · simp only [List.map_cons, List.flatten_cons, hflat]
        exact List.take_append_drop ret bufs
    · have hlen0 : (bufs.drop ret).length = 0 := by omega
      have hnil : bufs.drop ret = [] := List.length_eq_zero.mp hlen0
      have hreteq : ret = bufs.length := by
        rw [List.length_drop] at hlen0; omega
      refine ⟨[(bufs, ret)], ?_, ?_, by simp, ?_, ?_, ?_⟩
      · simp only [HandleTx.retry, hret, hrest, if_false]
        rw [hp2]
      · exact ⟨rfl, hr1, hr2, by simpa [retryTrace] using hnil⟩
      · simp only [List.length_singleton]; omega
      · simp [hreteq]
      · simp [hreteq]

theorem HandleTx_spec (nic : Nic) (hprog : nic.progress) (fuel : Nat) (hfuel : MAX_TX_BURST ≤ fuel)
    (h : Host) :
    ∃ calls : List (List rte_mbuf × Nat),
      DpdkNetDevice.HandleTx nic fuel h
        = some { dev := { h.dev with m_txRing :=
                    { h.dev.m_txRing with items := h.dev.m_txRing.items.drop MAX_TX_BURST } },
                 port := { h.port with txCalls := h.port.txCalls ++ calls } } ∧
      retryTrace (h.dev.m_txRing.items.take MAX_TX_BURST) calls ∧
      calls.length ≤ (h.dev.m_txRing.items.take MAX_TX_BURST).length ∧
      (calls.map Prod.snd).sum = (h.dev.m_txRing.items.take MAX_TX_BURST).length ∧
      (calls.map (fun c => c.1.take c.2)).flatten = h.dev.m_txRing.items.take MAX_TX_BURST := by
  by_cases hdeq : (h.dev.m_txRing.items.take MAX_TX_BURST).length = 0
  · have hnil : h.dev.m_txRing.items.take MAX_TX_BURST = [] := List.length_eq_zero.mp hdeq
    refine ⟨[], ?_, ?_, ?_, ?_, ?_⟩
    · simp [DpdkNetDevice.HandleTx, rte_ring_dequeue_burst, hdeq]
    · simpa [retryTrace] using hnil
    · simp
    · simp [hdeq]
    · simp [hnil]
  · have hne : h.dev.m_txRing.items.take MAX_TX_BURST ≠ [] := by
      intro h0; rw [h0] at hdeq; simp at hdeq
    have hlen : (h.dev.m_txRing.items.take MAX_TX_BURST).length ≤ fuel :=
      le_trans (by rw [List.length_take]; exact Nat.min_le_left _ _) hfuel
    obtain ⟨calls, hrun, htr, _, hcl, hsum, hflat⟩ :=
      retry_spec nic hprog fuel _ h.port hne hlen
    refine ⟨calls, ?_, htr, hcl, hsum, hflat⟩
    simp only [DpdkNetDevice.HandleTx, rte_ring_dequeue_burst]
    rw [if_neg hdeq, hrun]
    rfl

/-- Claim C10: against hardware that accepts at least one buffer of every
non-empty offer, `HandleTx` returns (given fuel for `MAX_TX_BURST` transmit
calls).  It dequeues the first at most 32 handles of the outbound ring and
leaves the others; the transmit calls it makes (`calls`) are at most as many
as the handles dequeued, each offers exactly what the calls before it did not
accept, the accepted counts add up to the number dequeued and the accepted
buffers are the dequeued ones in order.  Nothing but the ring and the port
record changes.  With an empty ring no transmit call is made. -/
theorem HandleTx_retry_terminates (nic : Nic) (hprog : nic.progress) (fuel : Nat)
    (hfuel : MAX_TX_BURST ≤ fuel) (h : Host) :
    ∃ (h1 : Host) (calls : List (List rte_mbuf × Nat)),
      DpdkNetDevice.HandleTx nic fuel h = some h1 ∧
      (h.dev.m_txRing.items.take MAX_TX_BURST).length ≤ 32 ∧
      h1.dev.m_txRing.items = h.dev.m_txRing.items.drop MAX_TX_BURST ∧
      h1.port.txCalls = h.port.txCalls ++ calls ∧
      calls.length ≤ (h.dev.m_txRing.items.take MAX_TX_BURST).length ∧
      retryTrace (h.dev.m_txRing.items.take MAX_TX_BURST) calls ∧
      (calls.map Prod.snd).sum = (h.dev.m_txRing.items.take MAX_TX_BURST).length ∧
      (calls.map (fun c => c.1.take c.2)).flatten = h.dev.m_txRing.items.take MAX_TX_BURST ∧
      h1.port.rxCalls = h.port.rxCalls ∧
      h1.dev.m_mempool = h.dev.m_mempool ∧ h1.dev.m_rxRing = h.dev.m_rxRing ∧
      (h.dev.m_txRing.items = [] → calls = [] ∧ h1 = h) := by
  obtain ⟨calls, hrun, htr, hcl, hsum, hflat⟩ := HandleTx_spec nic hprog fuel hfuel h
  refine ⟨_, calls, hrun, ?_, rfl, rfl, hcl, htr, hsum, hflat, rfl, rfl, rfl, ?_⟩
  · rw [List.length_take]; exact Nat.min_le_left _ _
  · intro hnil
    have hc : calls = [] := by
      rw [hnil] at hcl
      simpa using hcl
    refine ⟨hc, ?_⟩
    subst hc
    cases h with
    | mk dev port =>
      cases dev with
      | mk q rs tx rx mp =>
        cases tx with
        | mk cap items =>
          simp only at hnil
          subst hnil
          simp

/-- Witness of C10 with three handles in the ring and hardware that takes one buffer per
call. -/
theorem HandleTx_retry_terminates_witness :
    ∃ (h1 : Host) (calls : List (List rte_mbuf × Nat)),
      DpdkNetDevice.HandleTx nicOneByOne 32 txHost3 = some h1 ∧
      (txHost3.dev.m_txRing.items.take MAX_TX_BURST).length ≤ 32 ∧
      h1.dev.m_txRing.items = txHost3.dev.m_txRing.items.drop MAX_TX_BURST ∧
      h1.port.txCalls = txHost3.port.txCalls ++ calls ∧
      calls.length ≤ (txHost3.dev.m_txRing.items.take MAX_TX_BURST).length ∧
      retryTrace (txHost3.dev.m_txRing.items.take MAX_TX_BURST) calls ∧
      (calls.map Prod.snd).sum = (txHost3.dev.m_txRing.items.take MAX_TX_BURST).length ∧
      (calls.map (fun c => c.1.take c.2)).flatten = txHost3.dev.m_txRing.items.take MAX_TX_BURST ∧
      h1.port.rxCalls = txHost3.port.rxCalls ∧
      h1.dev.m_mempool = txHost3.dev.m_mempool ∧ h1.dev.m_rxRing = txHost3.dev.m_rxRing ∧
      (txHost3.dev.m_txRing.items = [] → calls = [] ∧ h1 = txHost3) :=
  HandleTx_retry_terminates nicOneByOne (fun _ _ _ => le_refl 1) 32 (le_refl 32) txHost3

/-! ## The transmit path -/

theorem Write_eq_of_cons (dev : DpdkNetDevice) (buffer : List Byte) (length : Nat)
    (m : rte_mbuf) (rest : List rte_mbuf) (hfree : dev.m_mempool.free = m :: rest)
    (hring : dev.m_txRing.items.length < dev.m_txRing.capacity) :
    dev.Write buffer length =
      (toSSize length,
        { dev with
          m_mempool := { dev.m_mempool with free := rest }
          m_txRing := { dev.m_txRing with items := dev.m_txRing.items ++ [Write.pkt m buffer length] } }) := by
  simp [DpdkNetDevice.Write, rte_pktmbuf_alloc, hfree, rte_ring_enqueue, hring, Write.pkt]

theorem Write_eq_of_full (dev : DpdkNetDevice) (buffer : List Byte) (length : Nat)
    (hring : dev.m_txRing.capacity ≤ dev.m_txRing.items.length) :
    dev.Write buffer length =
      (-1, { dev with m_mempool := { dev.m_mempool with free := dev.m_mempool.free.tail } }) := by
  have hn : ¬ dev.m_txRing.items.length < dev.m_txRing.capacity := by omega
  cases hfree : dev.m_mempool.free with
  | nil =>
    simp only [DpdkNetDevice.Write, rte_pktmbuf_alloc, hfree, List.tail_nil]
    cases dev with
    | mk q rs tx rx mp =>
      cases mp with
      | mk room free =>
        simp only at hfree
        subst hfree
        rfl
  | cons m rest =>
    simp [DpdkNetDevice.Write, rte_pktmbuf_alloc, hfree, rte_ring_enqueue, hn]

theorem Write_pkt_view (m : rte_mbuf) (f : Frame) (hbuf : f.2 ≤ f.1.length) (h16 : f.2 < 2 ^ 16) :
    (Write.pkt m f.1 f.2).view = f.view := by
  have hm16 : f.2 % 2 ^ 16 = f.2 := Nat.mod_eq_of_lt h16
  have hm32 : f.2 % 2 ^ 32 = f.2 := Nat.mod_eq_of_lt (by omega)
  simp only [Write.pkt, rte_mbuf.view, Frame.view, rte_mbuf.payload, hm16, hm32,
    memcpy_take _ _ _ hbuf]

theorem Frame.fits_bounds (mp : rte_mempool) (f : Frame) (h : f.fits mp = true) :
    f.2 ≤ f.1.length ∧ f.2 < 2 ^ 16 := by
  simp only [Frame.fits, Bool.and_eq_true, decide_eq_true_eq] at h
  have : rte_pktmbuf_data_room_size mp < 2 ^ 16 := by
    unfold rte_pktmbuf_data_room_size; exact Nat.mod_lt _ (by norm_num)
  omega

theorem runTx_append (nic : Nic) (fuel : Nat) (ops1 ops2 : List TxOp) :
    ∀ s : Host × List Int,
      runTx nic fuel (ops1 ++ ops2) s = (runTx nic fuel ops1 s).bind (runTx nic fuel ops2) := by
  induction ops1 with
  | nil => intro s; simp [runTx]
  | cons op ops ih =>
    intro s
    cases op with
    | write b l => simp only [List.cons_append, runTx]; exact ih _
    | handleTx =>
      simp only [List.cons_append, runTx]
      cases DpdkNetDevice.HandleTx nic fuel s.1 with
      | none => simp
      | some h => exact ih _

theorem sent_append_call (p : PortLog) (calls : List (List rte_mbuf × Nat)) :
    PortLog.sent { p with txCalls := p.txCalls ++ calls }
      = p.sent ++ (calls.map (fun c => c.1.take c.2)).flatten := by
  simp [PortLog.sent]

theorem HandleTx_move (nic : Nic) (hprog : nic.progress) (fuel : Nat) (hfuel : MAX_TX_BURST ≤ fuel)
    (h : Host) :
    ∃ h1 : Host,
      DpdkNetDevice.HandleTx nic fuel h = some h1 ∧
      h1.dev.m_txRing.items = h.dev.m_txRing.items.drop MAX_TX_BURST ∧
      h1.dev.m_txRing.capacity = h.dev.m_txRing.capacity ∧
      h1.dev.m_mempool = h.dev.m_mempool ∧
      h1.dev.m_rxRing = h.dev.m_rxRing ∧
      h1.dev.m_forceQuit = h.dev.m_forceQuit ∧
      h1.port.sent = h.port.sent ++ h.dev.m_txRing.items.take MAX_TX_BURST ∧
      h1.port.rxCalls = h.port.rxCalls ∧
      h.port.txCalls.length ≤ h1.port.txCalls.length ∧
      h1.port.txCalls.length ≤ h.port.txCalls.length + MAX_TX_BURST := by
  obtain ⟨calls, hrun, _, hcl, _, hflat⟩ := HandleTx_spec nic hprog fuel hfuel h
  refine ⟨_, hrun, rfl, rfl, rfl, rfl, rfl, ?_, rfl, ?_, ?_⟩
  · rw [sent_append_call, hflat]
  · simp
  · have : (h.dev.m_txRing.items.take MAX_TX_BURST).length ≤ MAX_TX_BURST := by
      rw [List.length_take]; exact Nat.min_le_left _ _
    simp only [List.length_append]
    omega

theorem runTx_spec (nic : Nic) (hprog : nic.progress) (fuel : Nat) (hfuel : MAX_TX_BURST ≤ fuel) :
    ∀ (ops : List TxOp) (h : Host) (res : List Int),
      h.dev.m_txRing.items.length + (TxOp.frames ops).length ≤ h.dev.m_txRing.capacity →
      (TxOp.frames ops).length ≤ h.dev.m_mempool.free.length →
      (∀ f ∈ TxOp.frames ops, f.2 ≤ f.1.length ∧ f.2 < 2 ^ 16) →
      ∃ (h1 : Host) (pkts : List rte_mbuf),
        runTx nic fuel ops (h, res) = some (h1, res ++ (TxOp.frames ops).map (fun f => (f.2 : Int))) ∧
        h1.port.sent ++ h1.dev.m_txRing.items = h.port.sent ++ h.dev.m_txRing.items ++ pkts ∧
        pkts.map rte_mbuf.view = (TxOp.frames ops).map Frame.view ∧
        pkts.map rte_mbuf.addr
          = (h.dev.m_mempool.free.take (TxOp.frames ops).length).map rte_mbuf.addr ∧
        h1.dev.m_mempool.free = h.dev.m_mempool.free.drop (TxOp.frames ops).length ∧
        h.port.sent.length ≤ h1.port.sent.length := by
  intro ops
  induction ops with
  | nil =>
    intro h res _ _ _
    exact ⟨h, [], by simp [runTx, TxOp.frames], by simp, by simp [TxOp.frames],
      by simp [TxOp.frames], by simp [TxOp.frames], le_refl _⟩
  | cons op ops ih =>
    intro h res hcap hpool hfit
    cases op with
    | write b l =>
      simp only [TxOp.frames, List.length_cons] at hcap hpool hfit
      cases hfree : h.dev.m_mempool.free with
      | nil => rw [hfree] at hpool; simp at hpool
      | cons m rest =>
        rw [hfree] at hpool
        simp only [List.length_cons] at hpool
        have hw := Write_eq_of_cons h.dev b l m rest hfree (by omega)
        obtain ⟨hb, h16⟩ := hfit (b, l) (by simp)
        have hret : toSSize l = (l : Int) := toSSize_of_lt l (by omega)
        obtain ⟨h1, pkts, hrun, hsent, hview, haddr, hfree1, hmono⟩ :=
          ih { h with dev := (h.dev.Write b l).2 } (res ++ [(h.dev.Write b l).1])
            (by rw [hw]; simp only [List.length_append, List.length_singleton]; omega)
            (by rw [hw]; simp only; omega)
            (fun f hf => hfit f (by simp [hf]))
        refine ⟨h1, Write.pkt m b l :: pkts, ?_, ?_, ?_, ?_, ?_, hmono⟩
        · simp only [runTx, TxOp.frames]
          rw [hrun, hw, hret]
          simp
        · rw [hsent, hw]
          simp
        · simp only [List.map_cons, TxOp.frames, hview]
          rw [Write_pkt_view m (b, l) hb h16]
        · rw [hw] at haddr
          simp only [List.map_cons, TxOp.frames, List.length_cons, List.take_succ_cons, haddr]
          simp [Write.pkt]
        · rw [hfree1, hw]
          simp [TxOp.frames]
    | handleTx =>
      simp only [TxOp.frames] at hcap hpool hfit ⊢
      obtain ⟨h2, hrun, hitems, hcap2, hpool2, _, _, hsent2, _, _, _⟩ :=
        HandleTx_move nic hprog fuel hfuel h
      obtain ⟨h1, pkts, hrun1, hsent, hview, haddr, hfree1, hmono⟩ :=
        ih h2 res
          (by rw [hitems, hcap2, List.length_drop]; omega) (by rw [hpool2]; exact hpool) hfit
      refine ⟨h1, pkts, ?_, ?_, hview, by rw [haddr, hpool2], by rw [hfree1, hpool2],
        le_trans (by rw [hsent2]; simp) hmono⟩
      · simp only [runTx, hrun]
        exact hrun1
      · rw [hsent, hsent2, hitems]
        simp only [List.append_assoc, List.take_append_drop]

theorem runTx_drain (nic : Nic) (hprog : nic.progress) (fuel : Nat) (hfuel : MAX_TX_BURST ≤ fuel) :
    ∀ (k : Nat) (h : Host) (res : List Int),
      h.dev.m_txRing.items.length ≤ MAX_TX_BURST * k →
      ∃ h1 : Host,
        runTx nic fuel (List.replicate k TxOp.handleTx) (h, res) = some (h1, res) ∧
        h1.port.sent = h.port.sent ++ h.dev.m_txRing.items ∧
        h1.dev.m_txRing.items = [] ∧
        h1.dev.m_mempool = h.dev.m_mempool := by
  intro k
  induction k with
  | zero =>
    intro h res hlen
    have hnil : h.dev.m_txRing.items = [] := List.length_eq_zero.mp (by omega)
    exact ⟨h, by simp [runTx], by simp [hnil], hnil, rfl⟩
  | succ k ih =>
    intro h res hlen
    obtain ⟨h2, hrun, hitems2, _, hpool2, _, _, hsent2, _, _, _⟩ :=
      HandleTx_move nic hprog fuel hfuel h
    obtain ⟨h1, hrun1, hsent, hitems, hpool⟩ := ih h2 res
      (by rw [hitems2, List.length_drop]; unfold MAX_TX_BURST at *; omega)
    refine ⟨h1, ?_, ?_, hitems, by rw [hpool, hpool2]⟩
    · simp only [List.replicate_succ, runTx, hrun]
      exact hrun1
    · rw [hsent, hsent2, hitems2]
      simp only [List.append_assoc, List.take_append_drop]

/-! ### Hardware that may take nothing at a transmit call -/

theorem retry_safe (nic : Nic) :
    ∀ (fuel : Nat) (bufs : List rte_mbuf) (p p1 : PortLog),
      HandleTx.retry nic fuel bufs p = some p1 →
      p1.sent = p.sent ++ bufs ∧ p1.rxCalls = p.rxCalls := by
  intro fuel
  induction fuel with
  | zero => intro bufs p p1 h; simp [HandleTx.retry] at h
  | succ fuel ih =>
    intro bufs p p1 h
    have hp2 : (rte_eth_tx_burst nic p bufs).2
        = { p with txCalls := p.txCalls ++ [(bufs, (rte_eth_tx_burst nic p bufs).1)] } := rfl
    have hsent : (rte_eth_tx_burst nic p bufs).2.sent
        = p.sent ++ bufs.take (rte_eth_tx_burst nic p bufs).1 := by
      rw [hp2, sent_append_call]; simp
    have hrx : (rte_eth_tx_burst nic p bufs).2.rxCalls = p.rxCalls := by rw [hp2]
    by_cases hrest : (bufs.drop (rte_eth_tx_burst nic p bufs).1).length > 0
    · simp only [HandleTx.retry, hrest, if_true] at h
      obtain ⟨h1, h2⟩ := ih _ _ _ h
      refine ⟨?_, by rw [h2, hrx]⟩
      rw [h1, hsent, List.append_assoc, List.take_append_drop]
    · simp only [HandleTx.retry, hrest, if_false, Option.some.injEq] at h
      have hnil : bufs.drop (rte_eth_tx_burst nic p bufs).1 = [] :=
        List.length_eq_zero.mp (by omega)
      have htake : bufs.take (rte_eth_tx_burst nic p bufs).1 = bufs := by
        have := List.take_append_drop (rte_eth_tx_burst nic p bufs).1 bufs
        rw [hnil, List.append_nil] at this
        exact this
      rw [← h]
      exact ⟨by rw [hsent, htake], hrx⟩

theorem retry_mono (nic : Nic) :
    ∀ (fuel : Nat) (bufs : List rte_mbuf) (p p1 : PortLog),
      HandleTx.retry nic fuel bufs p = some p1 →
      HandleTx.retry nic (fuel + 1) bufs p = some p1 := by
  intro fuel
  induction fuel with
  | zero => intro bufs p p1 h; simp [HandleTx.retry] at h
  | succ fuel ih =>
    intro bufs p p1 h
    by_cases hrest : (bufs.drop (rte_eth_tx_burst nic p bufs).1).length > 0
    · simp only [HandleTx.retry, hrest, if_true] at h
      have := ih _ _ _ h
      rw [HandleTx.retry]
      simp only [hrest, if_true]
      exact this
    · simp only [HandleTx.retry, hrest, if_false] at h
      rw [HandleTx.retry]
      simp only [hrest, if_false]
      exact h

theorem retry_mono_le (nic : Nic) (bufs : List rte_mbuf) (p p1 : PortLog) (fuel : Nat)
    (h : HandleTx.retry nic fuel bufs p = some p1) :
    ∀ fuel2, fuel ≤ fuel2 → HandleTx.retry nic fuel2 bufs p = some p1 := by
  intro fuel2 hle
  induction fuel2 with
  | zero =>
    have : fuel = 0 := by omega
    rw [this] at h
    exact h
  | succ m ih =>
    by_cases hm : fuel ≤ m
    · exact retry_mono nic m bufs p p1 (ih hm)
    · have : fuel = m + 1 := by omega
      rw [this] at h
      exact h

theorem retry_wait (nic : Nic) :
    ∀ (d : Nat) (bufs : List rte_mbuf) (p : PortLog) (j : Nat),
      bufs ≠ [] → p.txCalls.length + d = j → 1 ≤ nic.txAccept j bufs →
      (∀ (bufs2 : List rte_mbuf) (p2 : PortLog), bufs2.length < bufs.length →
        ∃ fuel p1, HandleTx.retry nic fuel bufs2 p2 = some p1) →
      ∃ fuel p1, HandleTx.retry nic fuel bufs p = some p1 := by
  intro d
  induction d with
  | zero =>
    intro bufs p j hne hj hacc hshort
    have hlen : 1 ≤ bufs.length := by
      cases bufs with
      | nil => exact absurd rfl hne
      | cons a l => simp
    have hret : 1 ≤ (rte_eth_tx_burst nic p bufs).1 := by
      simp only [rte_eth_tx_burst]
      rw [Nat.add_zero] at hj
      rw [hj]
      omega
    by_cases hrest : (bufs.drop (rte_eth_tx_burst nic p bufs).1).length > 0
    · obtain ⟨fuel, p1, hrun⟩ := hshort (bufs.drop (rte_eth_tx_burst nic p bufs).1)
        (rte_eth_tx_burst nic p bufs).2 (by rw [List.length_drop]; omega)
      refine ⟨fuel + 1, p1, ?_⟩
      rw [HandleTx.retry]
      simp only [hrest, if_true]
      exact hrun
    · refine ⟨1, (rte_eth_tx_burst nic p bufs).2, ?_⟩
      rw [HandleTx.retry]
      simp only [hrest, if_false]
  | succ d ih =>
    intro bufs p j hne hj hacc hshort
    by_cases hrest : (bufs.drop (rte_eth_tx_burst nic p bufs).1).length > 0
    · by_cases hret : (rte_eth_tx_burst nic p bufs).1 = 0
      · have hdrop : bufs.drop (rte_eth_tx_burst nic p bufs).1 = bufs := by
          rw [hret]; rfl
        obtain ⟨fuel, p1, hrun⟩ := ih bufs (rte_eth_tx_burst nic p bufs).2 j hne
          (by simp only [rte_eth_tx_burst, List.length_append, List.length_singleton]; omega)
          hacc hshort
        refine ⟨fuel + 1, p1, ?_⟩
        rw [HandleTx.retry]
        simp only [hrest, if_true]
        rw [hdrop]
        exact hrun
      · obtain ⟨fuel, p1, hrun⟩ := hshort (bufs.drop (rte_eth_tx_burst nic p bufs).1)
          (rte_eth_tx_burst nic p bufs).2
          (by
            have hlen : 1 ≤ bufs.length := by
              cases bufs with
              | nil => exact absurd rfl hne
              | cons a l => simp
            rw [List.length_drop]; omega)
        refine ⟨fuel + 1, p1, ?_⟩
        rw [HandleTx.retry]
        simp only [hrest, if_true]
        exact hrun
    · refine ⟨1, (rte_eth_tx_burst nic p bufs).2, ?_⟩
      rw [HandleTx.retry]
      simp only [hrest, if_false]

theorem retry_live (nic : Nic) (hy : nic.yields) :
    ∀ (n : Nat) (bufs : List rte_mbuf) (p : PortLog), bufs.length ≤ n →
      ∃ fuel p1, HandleTx.retry nic fuel bufs p = some p1 := by
  intro n
  induction n with
  | zero =>
    intro bufs p hlen
    have hnil : bufs = [] := List.length_eq_zero.mp (by omega)
    subst hnil
    exact ⟨1, (rte_eth_tx_burst nic p []).2, by simp [HandleTx.retry]⟩
  | succ n ih =>
    intro bufs p hlen
    by_cases hne : bufs = []
    · subst hne
      exact ⟨1, (rte_eth_tx_burst nic p []).2, by simp [HandleTx.retry]⟩
    · obtain ⟨j, hj, hacc⟩ := hy p.txCalls.length bufs hne
      exact retry_wait nic (j - p.txCalls.length) bufs p j hne (by omega) hacc
        (fun bufs2 p2 h2 => ih bufs2 p2 (by omega))

theorem HandleTx_safe (nic : Nic) (fuel : Nat) (h h1 : Host)
    (hrun : DpdkNetDevice.HandleTx nic fuel h = some h1) :
    h1.dev.m_txRing.items = h.dev.m_txRing.items.drop MAX_TX_BURST ∧
    h1.dev.m_txRing.capacity = h.dev.m_txRing.capacity ∧
    h1.dev.m_mempool = h.dev.m_mempool ∧
    h1.port.sent = h.port.sent ++ h.dev.m_txRing.items.take MAX_TX_BURST ∧
    h1.port.rxCalls = h.port.rxCalls := by
  by_cases hdeq : (h.dev.m_txRing.items.take MAX_TX_BURST).length = 0
  · have hnil : h.dev.m_txRing.items.take MAX_TX_BURST = [] := List.length_eq_zero.mp hdeq
    simp only [DpdkNetDevice.HandleTx, rte_ring_dequeue_burst] at hrun
    rw [if_pos hdeq] at hrun
    simp only [Option.some.injEq] at hrun
    rw [← hrun, hnil]
    simp
  · simp only [DpdkNetDevice.HandleTx, rte_ring_dequeue_burst] at hrun
    rw [if_neg hdeq] at hrun
    cases hr : HandleTx.retry nic fuel (h.dev.m_txRing.items.take MAX_TX_BURST) h.port with
    | none => rw [hr] at hrun; simp at hrun
    | some p1 =>
      rw [hr] at hrun
      simp only [Option.map_some', Option.some.injEq] at hrun
      obtain ⟨s1, s2⟩ := retry_safe nic fuel _ _ _ hr
      rw [← hrun]
      exact ⟨rfl, rfl, rfl, s1, s2⟩

theorem HandleTx_mono_le (nic : Nic) (fuel fuel2 : Nat) (hle : fuel ≤ fuel2) (h h1 : Host)
    (hrun : DpdkNetDevice.HandleTx nic fuel h = some h1) :
    DpdkNetDevice.HandleTx nic fuel2 h = some h1 := by
  by_cases hdeq : (h.dev.m_txRing.items.take MAX_TX_BURST).length = 0
  · simp only [DpdkNetDevice.HandleTx, rte_ring_dequeue_burst] at hrun ⊢
    rw [if_pos hdeq] at hrun ⊢
    exact hrun
  · simp only [DpdkNetDevice.HandleTx, rte_ring_dequeue_burst] at hrun ⊢
    rw [if_neg hdeq] at hrun ⊢
    cases hr : HandleTx.retry nic fuel (h.dev.m_txRing.items.take MAX_TX_BURST) h.port with
    | none => rw [hr] at hrun; simp at hrun
    | some p1 =>
      rw [hr] at hrun
      rw [retry_mono_le nic _ _ _ fuel hr fuel2 hle]
      exact hrun

theorem HandleTx_live (nic : Nic) (hy : nic.yields) (h : Host) :
    ∃ fuel h1, DpdkNetDevice.HandleTx nic fuel h = some h1 := by
  by_cases hdeq : (h.dev.m_txRing.items.take MAX_TX_BURST).length = 0
  · refine ⟨0, { h with dev := { h.dev with m_txRing :=
        { h.dev.m_txRing with items := h.dev.m_txRing.items.drop MAX_TX_BURST } } }, ?_⟩
    simp only [DpdkNetDevice.HandleTx, rte_ring_dequeue_burst]
    rw [if_pos hdeq]
  · obtain ⟨fuel, p1, hr⟩ := retry_live nic hy _ (h.dev.m_txRing.items.take MAX_TX_BURST)
      h.port (le_refl _)
    refine ⟨fuel, Host.mk { h.dev with m_txRing :=
        { h.dev.m_txRing with items := h.dev.m_txRing.items.drop MAX_TX_BURST } } p1, ?_⟩
    simp only [DpdkNetDevice.HandleTx, rte_ring_dequeue_burst]
    rw [if_neg hdeq, hr]
    rfl

theorem runTx_mono_le (nic : Nic) (fuel fuel2 : Nat) (hle : fuel ≤ fuel2) :
    ∀ (ops : List TxOp) (s r : Host × List Int),
      runTx nic fuel ops s = some r → runTx nic fuel2 ops s = some r := by
  intro ops
  induction ops with
  | nil => intro s r h; simpa [runTx] using h
  | cons op ops ih =>
    intro s r h
    cases op with
    | write b l =>
      simp only [runTx] at h ⊢
      exact ih _ _ h
    | handleTx =>
      simp only [runTx] at h ⊢
      cases hr : DpdkNetDevice.HandleTx nic fuel s.1 with
      | none => rw [hr] at h; simp at h
      | some h1 =>
        rw [hr] at h
        rw [HandleTx_mono_le nic fuel fuel2 hle _ _ hr]
        exact ih _ _ h

theorem runTx_live (nic : Nic) (hy : nic.yields) :
    ∀ (ops : List TxOp) (s : Host × List Int), ∃ fuel r, runTx nic fuel ops s = some r := by
  intro ops
  induction ops with
  | nil => intro s; exact ⟨0, s, rfl⟩
  | cons op ops ih =>
    intro s
    cases op with
    | write b l =>
      obtain ⟨fuel, r, hr⟩ := ih ({ s.1 with dev := (s.1.dev.Write b l).2 },
        s.2 ++ [(s.1.dev.Write b l).1])
      exact ⟨fuel, r, by simp only [runTx]; exact hr⟩
    | handleTx =>
      obtain ⟨f1, h1, hr1⟩ := HandleTx_live nic hy s.1
      obtain ⟨f2, r, hr2⟩ := ih (h1, s.2)
      refine ⟨max f1 f2, r, ?_⟩
      simp only [runTx]
      rw [HandleTx_mono_le nic f1 (max f1 f2) (Nat.le_max_left _ _) _ _ hr1]
      exact runTx_mono_le nic f2 (max f1 f2) (Nat.le_max_right _ _) _ _ _ hr2

theorem runTx_safe (nic : Nic) (fuel : Nat) :
    ∀ (ops : List TxOp) (h : Host) (res : List Int) (h1 : Host) (res1 : List Int),
      h.dev.m_txRing.items.length + (TxOp.frames ops).length ≤ h.dev.m_txRing.capacity →
      (TxOp.frames ops).length ≤ h.dev.m_mempool.free.length →
      (∀ f ∈ TxOp.frames ops, f.2 ≤ f.1.length ∧ f.2 < 2 ^ 16) →
      runTx nic fuel ops (h, res) = some (h1, res1) →
      res1 = res ++ (TxOp.frames ops).map (fun f => (f.2 : Int)) ∧
      ∃ pkts : List rte_mbuf,
        h1.port.sent ++ h1.dev.m_txRing.items = h.port.sent ++ h.dev.m_txRing.items ++ pkts ∧
        pkts.map rte_mbuf.view = (TxOp.frames ops).map Frame.view ∧
        pkts.map rte_mbuf.addr
          = (h.dev.m_mempool.free.take (TxOp.frames ops).length).map rte_mbuf.addr ∧
        h.port.sent.length ≤ h1.port.sent.length := by
  intro ops
  induction ops with
  | nil =>
    intro h res h1 res1 _ _ _ hrun
    simp only [runTx, Option.some.injEq, Prod.mk.injEq] at hrun
    obtain ⟨e1, e2⟩ := hrun
    subst e1; subst e2
    exact ⟨by simp [TxOp.frames], [], by simp, by simp [TxOp.frames], by simp [TxOp.frames],
      le_refl _⟩
  | cons op ops ih =>
    intro h res h1 res1 hcap hpool hfit hrun
    cases op with
    | write b l =>
      simp only [TxOp.frames, List.length_cons] at hcap hpool hfit
      cases hfree : h.dev.m_mempool.free with
      | nil => rw [hfree] at hpool; simp at hpool
      | cons m rest =>
        rw [hfree] at hpool
        simp only [List.length_cons] at hpool
        have hw := Write_eq_of_cons h.dev b l m rest hfree (by omega)
        obtain ⟨hb, h16⟩ := hfit (b, l) (by simp)
        have hret : toSSize l = (l : Int) := toSSize_of_lt l (by omega)
        simp only [runTx] at hrun
        obtain ⟨hres, pkts, hsent, hview, haddr, hmono⟩ :=
          ih { h with dev := (h.dev.Write b l).2 } (res ++ [(h.dev.Write b l).1]) h1 res1
            (by rw [hw]; simp only [List.length_append, List.length_singleton]; omega)
            (by rw [hw]; simp only; omega)
            (fun f hf => hfit f (by simp [hf]))
            hrun
        refine ⟨?_, Write.pkt m b l :: pkts, ?_, ?_, ?_, hmono⟩
        · rw [hres, hw, hret]
          simp [TxOp.frames]
        · rw [hsent, hw]
          simp
        · simp only [List.map_cons, TxOp.frames, hview]
          rw [Write_pkt_view m (b, l) hb h16]
        · rw [hw] at haddr
          simp only [List.map_cons, TxOp.frames, List.length_cons, List.take_succ_cons, haddr]
          simp [Write.pkt]
    | handleTx =>
      simp only [TxOp.frames] at hcap hpool hfit ⊢
      simp only [runTx] at hrun
      cases hr : DpdkNetDevice.HandleTx nic fuel h with
      | none => rw [hr] at hrun; simp at hrun
      | some h2 =>
        rw [hr] at hrun
        obtain ⟨hitems, hcap2, hpool2, hsent2, _⟩ := HandleTx_safe nic fuel h h2 hr
        obtain ⟨hres, pkts, hsent, hview, haddr, hmono⟩ :=
          ih h2 res h1 res1
            (by rw [hitems, hcap2, List.length_drop]; omega) (by rw [hpool2]; exact hpool) hfit
            hrun
        refine ⟨hres, pkts, ?_, hview, by rw [haddr, hpool2],
          le_trans (by rw [hsent2]; simp) hmono⟩
        rw [hsent, hsent2, hitems]
        simp only [List.append_assoc, List.take_append_drop]

theorem runTx_drain_safe (nic : Nic) (fuel : Nat) :
    ∀ (k : Nat) (h : Host) (res : List Int) (h1 : Host) (res1 : List Int),
      h.dev.m_txRing.items.length ≤ MAX_TX_BURST * k →
      runTx nic fuel (List.replicate k TxOp.handleTx) (h, res) = some (h1, res1) →
      res1 = res ∧ h1.port.sent = h.port.sent ++ h.dev.m_txRing.items ∧
      h1.dev.m_txRing.items = [] := by
  intro k
  induction k with
  | zero =>
    intro h res h1 res1 hlen hrun
    have hnil : h.dev.m_txRing.items = [] := List.length_eq_zero.mp (by omega)
    simp only [List.replicate_zero, runTx, Option.some.injEq, Prod.mk.injEq] at hrun
    obtain ⟨e1, e2⟩ := hrun
    subst e1; subst e2
    exact ⟨rfl, by simp [hnil], hnil⟩
  | succ k ih =>
    intro h res h1 res1 hlen hrun
    simp only [List.replicate_succ, runTx] at hrun
    cases hr : DpdkNetDevice.HandleTx nic fuel h with
    | none => rw [hr] at hrun; simp at hrun
    | some h2 =>
      rw [hr] at hrun
      obtain ⟨hitems, _, _, hsent2, _⟩ := HandleTx_safe nic fuel h h2 hr
      obtain ⟨e1, e2, e3⟩ := ih h2 res h1 res1
        (by rw [hitems, List.length_drop]; unfold MAX_TX_BURST at *; omega) hrun
      refine ⟨e1, ?_, e3⟩
      rw [e2, hsent2, hitems]
      simp only [List.append_assoc, List.take_append_drop]

theorem nicStutter_yields : nicStutter.yields := by
  intro i bufs _
  refine ⟨2 * i + 1, by omega, ?_⟩
  have h : (2 * i + 1) % 2 ≠ 0 := by omega
  simp only [nicStutter, h, if_false]
  exact le_refl 1

theorem retry_dead :
    ∀ (fuel : Nat) (bufs : List rte_mbuf) (p : PortLog), bufs ≠ [] →
      HandleTx.retry nicDead fuel bufs p = none := by
  intro fuel
  induction fuel with
  | zero => intro bufs p _; rfl
  | succ fuel ih =>
    intro bufs p hne
    have hret : (rte_eth_tx_burst nicDead p bufs).1 = 0 := by
      simp [rte_eth_tx_burst, nicDead]
    have hlen : (bufs.drop (rte_eth_tx_burst nicDead p bufs).1).length > 0 := by
      rw [hret]
      cases bufs with
      | nil => exact absurd rfl hne
      | cons a l => simp
    rw [HandleTx.retry]
    simp only [hlen, if_true]
    rw [hret]
    exact ih _ _ hne

/-- Against hardware that never takes a buffer `HandleTx` does not return once
it has dequeued a handle: the retry loop offers the same buffers for ever. -/
theorem HandleTx_dead (fuel : Nat) : DpdkNetDevice.HandleTx nicDead fuel txHost3 = none := by
  have hne : txHost3.dev.m_txRing.items.take MAX_TX_BURST ≠ [] := by decide
  have hlen : ¬ (txHost3.dev.m_txRing.items.take MAX_TX_BURST).length = 0 := by decide
  simp only [DpdkNetDevice.HandleTx, rte_ring_dequeue_burst]
  rw [if_neg hlen, retry_dead fuel _ _ hne]
  rfl

/-- Claim C5: take any execution `ops` of the transmit path, writes and runs of
`HandleTx` in any order, starting with an empty outbound ring, in which the
frames written are no more than the ring capacity and than the free buffers
of the pool, each within the capacity of a buffer; let `HandleTx` then run `k`
more times, enough for the frames written (32 per run).  Whatever the
hardware accepts at each transmit call, a part of the offer, all of it or
nothing, whenever these executions of `HandleTx` have returned (for any
amount of fuel) every write has returned its length, and the buffers the
hardware has accepted since the start are exactly the frames written, in the
order written, one buffer per frame (the pool's first free buffers, in
order), each with the payload and the length of its frame; the ring is empty
again.  And they do return, for all fuel from some amount on, provided the
hardware does not refuse a non-empty offer forever (otherwise the retry loop
of `HandleTx` never ends and no execution of it is ever repeated). -/
theorem tx_fifo_delivery (nic : Nic) (h0 : Host) (ops : List TxOp) (k : Nat)
    (hempty : h0.dev.m_txRing.items = [])
    (hcap : (TxOp.frames ops).length ≤ h0.dev.m_txRing.capacity)
    (hpool : (TxOp.frames ops).length ≤ h0.dev.m_mempool.free.length)
    (hfit : ∀ f ∈ TxOp.frames ops, f.fits h0.dev.m_mempool = true)
    (hk : (TxOp.frames ops).length ≤ MAX_TX_BURST * k) :
    (∀ (fuel : Nat) (h1 : Host) (res : List Int),
      runTx nic fuel (ops ++ List.replicate k TxOp.handleTx) (h0, []) = some (h1, res) →
      res = (TxOp.frames ops).map (fun f => (f.2 : Int)) ∧
      ∃ pkts : List rte_mbuf,
        h1.port.sent = h0.port.sent ++ pkts ∧
        pkts.map rte_mbuf.view = (TxOp.frames ops).map Frame.view ∧
        pkts.map rte_mbuf.addr
          = (h0.dev.m_mempool.free.take (TxOp.frames ops).length).map rte_mbuf.addr ∧
        h1.dev.m_txRing.items = []) ∧
    (nic.yields →
      ∃ fuel : Nat, ∀ fuel2 : Nat, fuel ≤ fuel2 →
        ∃ (h1 : Host) (pkts : List rte_mbuf),
          runTx nic fuel2 (ops ++ List.replicate k TxOp.handleTx) (h0, [])
            = some (h1, (TxOp.frames ops).map (fun f => (f.2 : Int))) ∧
          h1.port.sent = h0.port.sent ++ pkts ∧
          pkts.map rte_mbuf.view = (TxOp.frames ops).map Frame.view ∧
          pkts.map rte_mbuf.addr
            = (h0.dev.m_mempool.free.take (TxOp.frames ops).length).map rte_mbuf.addr ∧
          h1.dev.m_txRing.items = []) := by
  have safe : ∀ (fuel : Nat) (h1 : Host) (res : List Int),
      runTx nic fuel (ops ++ List.replicate k TxOp.handleTx) (h0, []) = some (h1, res) →
      res = (TxOp.frames ops).map (fun f => (f.2 : Int)) ∧
      ∃ pkts : List rte_mbuf,
        h1.port.sent = h0.port.sent ++ pkts ∧
        pkts.map rte_mbuf.view = (TxOp.frames ops).map Frame.view ∧
        pkts.map rte_mbuf.addr
          = (h0.dev.m_mempool.free.take (TxOp.frames ops).length).map rte_mbuf.addr ∧
        h1.dev.m_txRing.items = [] := by
    intro fuel h1 res hrun
    rw [runTx_append] at hrun
    cases hr : runTx nic fuel ops (h0, []) with
    | none => rw [hr] at hrun; simp at hrun
    | some r =>
      rw [hr] at hrun
      simp only [Option.some_bind] at hrun
      obtain ⟨hres, pkts, hsent, hview, haddr, hmono⟩ :=
        runTx_safe nic fuel ops h0 [] r.1 r.2
          (by rw [hempty]; simpa using hcap) hpool
          (fun f hf => Frame.fits_bounds _ f (hfit f hf)) hr
      have hlen : r.1.dev.m_txRing.items.length ≤ MAX_TX_BURST * k := by
        have h2 := congrArg List.length hsent
        have h3 := congrArg List.length hview
        simp only [List.length_append, List.length_map, hempty, List.length_nil] at h2 h3
        omega
      obtain ⟨e1, e2, e3⟩ := runTx_drain_safe nic fuel k r.1 r.2 h1 res hlen hrun
      refine ⟨by rw [e1, hres]; simp, pkts, ?_, hview, haddr, e3⟩
      rw [e2, hsent, hempty]
      simp
  refine ⟨safe, ?_⟩
  intro hy
  obtain ⟨fuel, r, hr⟩ := runTx_live nic hy (ops ++ List.replicate k TxOp.handleTx) (h0, [])
  refine ⟨fuel, fun fuel2 hle => ?_⟩
  have hr2 := runTx_mono_le nic fuel fuel2 hle _ _ _ hr
  obtain ⟨hres, pkts, q1, q2, q3, q4⟩ := safe fuel2 r.1 r.2 hr2
  refine ⟨r.1, pkts, ?_, q1, q2, q3, q4⟩
  rw [hr2, ← hres]

/-- Witness of C5 for three frames, a run of `HandleTx` coming between the
writes, and hardware that takes nothing at every other transmit call. -/
theorem tx_fifo_delivery_witness :
    (∀ (fuel : Nat) (h1 : Host) (res : List Int),
      runTx nicStutter fuel
          ([TxOp.write [1, 2] 2, TxOp.write [3] 1, TxOp.handleTx, TxOp.write [4, 5, 6] 3]
            ++ List.replicate 1 TxOp.handleTx) (⟨mkDevice 4 5, PortLog.fresh⟩, [])
        = some (h1, res) →
      res = (TxOp.frames
          [TxOp.write [1, 2] 2, TxOp.write [3] 1, TxOp.handleTx, TxOp.write [4, 5, 6] 3]).map
            (fun f => (f.2 : Int)) ∧
      ∃ pkts : List rte_mbuf,
        h1.port.sent = (⟨mkDevice 4 5, PortLog.fresh⟩ : Host).port.sent ++ pkts ∧
        pkts.map rte_mbuf.view = (TxOp.frames
          [TxOp.write [1, 2] 2, TxOp.write [3] 1, TxOp.handleTx, TxOp.write [4, 5, 6] 3]).map
            Frame.view ∧
        pkts.map rte_mbuf.addr
          = ((⟨mkDevice 4 5, PortLog.fresh⟩ : Host).dev.m_mempool.free.take (TxOp.frames
              [TxOp.write [1, 2] 2, TxOp.write [3] 1, TxOp.handleTx,
                TxOp.write [4, 5, 6] 3]).length).map rte_mbuf.addr ∧
        h1.dev.m_txRing.items = []) ∧
    (∃ fuel : Nat, ∀ fuel2 : Nat, fuel ≤ fuel2 →
      ∃ (h1 : Host) (pkts : List rte_mbuf),
        runTx nicStutter fuel2
            ([TxOp.write [1, 2] 2, TxOp.write [3] 1, TxOp.handleTx, TxOp.write [4, 5, 6] 3]
              ++ List.replicate 1 TxOp.handleTx) (⟨mkDevice 4 5, PortLog.fresh⟩, [])
          = some (h1, (TxOp.frames
              [TxOp.write [1, 2] 2, TxOp.write [3] 1, TxOp.handleTx,
                TxOp.write [4, 5, 6] 3]).map (fun f => (f.2 : Int))) ∧
        h1.port.sent = (⟨mkDevice 4 5, PortLog.fresh⟩ : Host).port.sent ++ pkts ∧
        pkts.map rte_mbuf.view = (TxOp.frames
          [TxOp.write [1, 2] 2, TxOp.write [3] 1, TxOp.handleTx, TxOp.write [4, 5, 6] 3]).map
            Frame.view ∧
        pkts.map rte_mbuf.addr
          = ((⟨mkDevice 4 5, PortLog.fresh⟩ : Host).dev.m_mempool.free.take (TxOp.frames
              [TxOp.write [1, 2] 2, TxOp.write [3] 1, TxOp.handleTx,
                TxOp.write [4, 5, 6] 3]).length).map rte_mbuf.addr ∧
        h1.dev.m_txRing.items = []) :=
  ⟨(tx_fifo_delivery nicStutter ⟨mkDevice 4 5, PortLog.fresh⟩
      [TxOp.write [1, 2] 2, TxOp.write [3] 1, TxOp.handleTx, TxOp.write [4, 5, 6] 3] 1
      (by decide) (by decide) (by decide) (by decide) (by decide)).1,
   (tx_fifo_delivery nicStutter ⟨mkDevice 4 5, PortLog.fresh⟩
      [TxOp.write [1, 2] 2, TxOp.write [3] 1, TxOp.handleTx, TxOp.write [4, 5, 6] 3] 1
      (by decide) (by decide) (by decide) (by decide) (by decide)).2 nicStutter_yields⟩

/-- The run of the witness of C5 evaluated: with fuel for four transmit calls
per `HandleTx` the hardware, busy at every other call, has accepted the three
frames in the order written. -/
theorem tx_stutter_run :
    (runTx nicStutter 4
        ([TxOp.write [1, 2] 2, TxOp.write [3] 1, TxOp.handleTx, TxOp.write [4, 5, 6] 3]
          ++ List.replicate 1 TxOp.handleTx) (⟨mkDevice 4 5, PortLog.fresh⟩, [])).map
        (fun r => r.2) = some [2, 1, 3] ∧
    (runTx nicStutter 4
        ([TxOp.write [1, 2] 2, TxOp.write [3] 1, TxOp.handleTx, TxOp.write [4, 5, 6] 3]
          ++ List.replicate 1 TxOp.handleTx) (⟨mkDevice 4 5, PortLog.fresh⟩, [])).map
        (fun r => r.1.port.sent.map rte_mbuf.view)
      = some [([1, 2], 2, 2), ([3], 1, 1), ([4, 5, 6], 3, 3)] ∧
    (runTx nicStutter 4
        ([TxOp.write [1, 2] 2, TxOp.write [3] 1, TxOp.handleTx, TxOp.write [4, 5, 6] 3]
          ++ List.replicate 1 TxOp.handleTx) (⟨mkDevice 4 5, PortLog.fresh⟩, [])).map
        (fun r => r.1.port.txCalls.map Prod.snd) = some [0, 1, 0, 1, 0, 1] := by
  decide

/-! ## The receive path -/

theorem HandleRx_fit (nic : Nic) (h : Host)
    (hfit : ((rte_eth_rx_burst nic h.port MAX_RX_BURST).1).length
      ≤ rte_ring_free_count h.dev.m_rxRing) :
    DpdkNetDevice.HandleRx nic h =
      { dev := { h.dev with m_rxRing :=
                  { h.dev.m_rxRing with
                    items := h.dev.m_rxRing.items ++ (rte_eth_rx_burst nic h.port MAX_RX_BURST).1 } }
        port := (rte_eth_rx_burst nic h.port MAX_RX_BURST).2 } := by
  unfold DpdkNetDevice.HandleRx
  by_cases h0 : ((rte_eth_rx_burst nic h.port MAX_RX_BURST).1).length = 0
  · have hnil : (rte_eth_rx_burst nic h.port MAX_RX_BURST).1 = [] := List.length_eq_zero.mp h0
    simp [hnil]
  · simp only [ne_eq, h0, not_false_eq_true, if_true, rte_ring_enqueue_burst,
      Nat.min_eq_left hfit, List.take_length]

theorem sane_frame (m : rte_mbuf) (h : m.sane = true) :
    m.payload.length = m.pkt_len ∧ m.pkt_len < 2 ^ 16 := by
  simp only [rte_mbuf.sane, Bool.and_eq_true, decide_eq_true_eq] at h
  simp only [rte_mbuf.payload, List.length_take]
  omega

theorem iteration_empty (t : ReaderTask) (dev : DpdkNetDevice) (hrun : t.running = true)
    (hstop : t.reader.m_stop = false) (hdev : t.reader.m_device = true)
    (hring : dev.m_rxRing.items = []) :
    DpdkNetDeviceReader.Run.iteration t dev = some (t, dev) := by
  simp [DpdkNetDeviceReader.Run.iteration, hrun, hstop, DpdkNetDeviceReader.DoRead, hdev,
    DpdkNetDevice.Read, DpdkNetDevice.Read.copied, rte_ring_dequeue, hring]

theorem iteration_cons (t : ReaderTask) (dev : DpdkNetDevice) (hrun : t.running = true)
    (hstop : t.reader.m_stop = false) (hdev : t.reader.m_device = true)
    (m : rte_mbuf) (rest : List rte_mbuf) (hring : dev.m_rxRing.items = m :: rest)
    (hsane : m.sane = true) (hpos : 0 < m.pkt_len) (hroom : m.pkt_len ≤ t.reader.m_bufferSize) :
    ∃ buf : List Byte,
      DpdkNetDeviceReader.Run.iteration t dev =
        some ({ t with delivered := t.delivered ++ [(buf, (m.pkt_len : Int))] },
         { dev with m_rxRing := { dev.m_rxRing with items := rest }
                    m_mempool := rte_pktmbuf_free m dev.m_mempool }) ∧
      buf.length = t.reader.m_bufferSize ∧
      deliveredView (buf, (m.pkt_len : Int)) = m.frame := by
  obtain ⟨hlen, hlt⟩ := sane_frame m hsane
  have hret : toInt32 m.pkt_len = (m.pkt_len : Int) := toInt32_of_lt _ (by omega)
  have hne : ¬ ((m.pkt_len : Int) = 0) := by omega
  have hgt : ¬ ((m.pkt_len : Int) ≤ 0) := by omega
  have hgt2 : (m.pkt_len : Int) > 0 := by omega
  have hnot : ¬ (t.reader.m_bufferSize < m.pkt_len) := by omega
  refine ⟨m.payload ++ (List.replicate t.reader.m_bufferSize (0 : Byte)).drop m.pkt_len, ?_, ?_, ?_⟩
  · simp only [DpdkNetDeviceReader.Run.iteration, hrun, hstop, DpdkNetDeviceReader.DoRead, hdev,
      DpdkNetDevice.Read, DpdkNetDevice.Read.copied, rte_ring_dequeue, hring, rte_pktmbuf_read,
      hret, memcpy]
    simp [hne, hgt, hgt2, hnot, rte_mbuf.payload, List.take_take]
  · simp only [List.length_append, hlen, List.length_drop, List.length_replicate]
    omega
  · simp only [deliveredView, rte_mbuf.frame, Int.toNat_ofNat]
    rw [← hlen, List.take_left]

/-- A zero-length buffer at the head of the inbound ring ends the reader: the
buffer is taken from the ring and freed, nothing is delivered, and the loop
of `Run` is left. -/
theorem iteration_zero_length (t : ReaderTask) (dev : DpdkNetDevice) (hrun : t.running = true)
    (hstop : t.reader.m_stop = false) (hdev : t.reader.m_device = true)
    (m : rte_mbuf) (rest : List rte_mbuf) (hring : dev.m_rxRing.items = m :: rest)
    (hzero : m.pkt_len = 0) :
    DpdkNetDeviceReader.Run.iteration t dev =
      some ({ t with running := false },
        { dev with m_rxRing := { dev.m_rxRing with items := rest }
                   m_mempool := rte_pktmbuf_free m dev.m_mempool }) := by
  have hret : toInt32 0 = 0 := by decide
  simp [DpdkNetDeviceReader.Run.iteration, hrun, hstop, DpdkNetDeviceReader.DoRead, hdev,
    DpdkNetDevice.Read, DpdkNetDevice.Read.copied, rte_ring_dequeue, hring, hzero, hret]

/-- Once the loop of `Run` has been left an iteration changes nothing. -/
theorem iteration_stopped (t : ReaderTask) (dev : DpdkNetDevice) (hrun : t.running = false) :
    DpdkNetDeviceReader.Run.iteration t dev = some (t, dev) := by
  simp [DpdkNetDeviceReader.Run.iteration, hrun]

/-- A frame longer than the reader's buffer at the head of the inbound ring:
`Read` writes past the end of the block that `DoRead` allocated, and the
iteration has no defined outcome. -/
theorem iteration_overrun (t : ReaderTask) (dev : DpdkNetDevice) (hrun : t.running = true)
    (hstop : t.reader.m_stop = false) (hdev : t.reader.m_device = true)
    (m : rte_mbuf) (rest : List rte_mbuf) (hring : dev.m_rxRing.items = m :: rest)
    (hlong : t.reader.m_bufferSize < m.pkt_len) :
    DpdkNetDeviceReader.Run.iteration t dev = none := by
  simp [DpdkNetDeviceReader.Run.iteration, hrun, hstop, DpdkNetDeviceReader.DoRead, hdev,
    DpdkNetDevice.Read.copied, hring, hlong]

theorem rxStep_reader_cons (nic : Nic) (s : RxSystem) (hrun : s.task.running = true)
    (hstop : s.task.reader.m_stop = false) (hdev : s.task.reader.m_device = true)
    (m : rte_mbuf) (rest : List rte_mbuf) (hring : s.host.dev.m_rxRing.items = m :: rest)
    (hsane : m.sane = true) (hpos : 0 < m.pkt_len)
    (hroom : m.pkt_len ≤ s.task.reader.m_bufferSize) :
    ∃ (s1 : RxSystem) (buf : List Byte),
      rxStep nic s RxOp.reader = some s1 ∧
      s1.task.running = true ∧ s1.task.reader = s.task.reader ∧
      s1.task.delivered = s.task.delivered ++ [(buf, (m.pkt_len : Int))] ∧
      deliveredView (buf, (m.pkt_len : Int)) = m.frame ∧
      s1.host.dev.m_rxRing.items = rest ∧
      s1.host.port = s.host.port := by
  obtain ⟨buf, hit, _, hview⟩ :=
    iteration_cons s.task s.host.dev hrun hstop hdev m rest hring hsane hpos hroom
  refine ⟨RxSystem.mk
      (Host.mk { s.host.dev with
          m_rxRing := { s.host.dev.m_rxRing with items := rest }
          m_mempool := rte_pktmbuf_free m s.host.dev.m_mempool } s.host.port)
      { s.task with delivered := s.task.delivered ++ [(buf, (m.pkt_len : Int))] },
    buf, ?_, hrun, rfl, rfl, hview, rfl, rfl⟩
  simp only [rxStep, hit]

theorem rx_invariant (nic : Nic) (B : Nat)
    (hnic : ∀ i, ∀ m ∈ nic.rxArrive i, m.sane = true ∧ 0 < m.pkt_len ∧ m.pkt_len ≤ B) :
    ∀ (ops : List RxOp) (s : RxSystem),
      s.task.running = true → s.task.reader.m_stop = false → s.task.reader.m_device = true →
      s.task.reader.m_bufferSize = B →
      (∀ m ∈ s.host.dev.m_rxRing.items, m.sane = true ∧ 0 < m.pkt_len ∧ m.pkt_len ≤ B) →
      rxNoOverflow nic ops s = true →
      ∃ s1 : RxSystem,
        rxRun nic ops s = some s1 ∧
        s1.task.running = true ∧
        s1.task.reader = s.task.reader ∧
        (∀ m ∈ s1.host.dev.m_rxRing.items, m.sane = true ∧ 0 < m.pkt_len ∧ m.pkt_len ≤ B) ∧
        ∃ recv : List rte_mbuf,
          s1.host.port.received = s.host.port.received ++ recv ∧
          s1.task.delivered.map deliveredView ++ s1.host.dev.m_rxRing.items.map rte_mbuf.frame
            = s.task.delivered.map deliveredView ++ s.host.dev.m_rxRing.items.map rte_mbuf.frame
              ++ recv.map rte_mbuf.frame := by
  intro ops
  induction ops with
  | nil =>
    intro s hrun _ _ _ hsane _
    exact ⟨s, rfl, hrun, rfl, hsane, [], by simp, by simp⟩
  | cons op ops ih =>
    intro s hrun hstop hdev hB hsane hfit
    cases op with
    | handleRx =>
      simp only [rxNoOverflow, Bool.and_eq_true, decide_eq_true_eq] at hfit
      have hstep := HandleRx_fit nic s.host hfit.1
      have hburst : ∀ m ∈ (rte_eth_rx_burst nic s.host.port MAX_RX_BURST).1,
          m.sane = true ∧ 0 < m.pkt_len ∧ m.pkt_len ≤ B := by
        intro m hm
        exact hnic _ m (List.mem_of_mem_take hm)
      obtain ⟨s1, h0, h1, h2, h3, recv, h4, h5⟩ :=
        ih { s with host := DpdkNetDevice.HandleRx nic s.host }
        hrun hstop hdev hB
        (by
          intro m hm
          simp only [hstep, List.mem_append] at hm
          rcases hm with hm | hm
          · exact hsane m hm
          · exact hburst m hm)
        hfit.2
      refine ⟨s1, by simp only [rxRun, rxStep]; exact h0, h1, h2, h3,
        (rte_eth_rx_burst nic s.host.port MAX_RX_BURST).1 ++ recv, ?_, ?_⟩
      · rw [h4]
        simp [hstep, rte_eth_rx_burst, PortLog.received]
      · rw [h5]
        simp [hstep]
    | reader =>
      cases hring : s.host.dev.m_rxRing.items with
      | nil =>
        have hit := iteration_empty s.task s.host.dev hrun hstop hdev hring
        have hstep : rxStep nic s RxOp.reader = some s := by
          simp only [rxStep, hit]
        simp only [rxNoOverflow, hstep] at hfit
        obtain ⟨s1, h0, h1, h2, h3, recv, h4, h5⟩ := ih s hrun hstop hdev hB hsane hfit
        refine ⟨s1, by simp only [rxRun, hstep]; exact h0, h1, h2, h3, recv, h4, ?_⟩
        rw [h5, hring]
      | cons m rest =>
        obtain ⟨hms, hmp, hmb⟩ := hsane m (by simp [hring])
        obtain ⟨s2, buf, hstep, r1, r2, r3, hview, r4, r5⟩ :=
          rxStep_reader_cons nic s hrun hstop hdev m rest hring hms hmp (by omega)
        simp only [rxNoOverflow, hstep] at hfit
        obtain ⟨s1, h0, h1, h2, h3, recv, h4, h5⟩ := ih s2 r1 (by rw [r2]; exact hstop)
          (by rw [r2]; exact hdev) (by rw [r2]; exact hB)
          (by
            intro x hx
            rw [r4] at hx
            exact hsane x (by rw [hring]; exact List.mem_cons_of_mem _ hx))
          hfit
        refine ⟨s1, by simp only [rxRun, hstep]; exact h0, h1, by rw [h2, r2], h3, recv,
          by rw [h4, r5], ?_⟩
        rw [h5, r3, r4]
        simp [hview]

theorem rxRun_append (nic : Nic) (ops1 ops2 : List RxOp) :
    ∀ s : RxSystem, rxRun nic (ops1 ++ ops2) s = (rxRun nic ops1 s).bind (rxRun nic ops2) := by
  induction ops1 with
  | nil => intro s; simp [rxRun]
  | cons op ops ih =>
    intro s
    simp only [List.cons_append, rxRun]
    cases rxStep nic s op with
    | none => simp
    | some s1 => exact ih s1

theorem rx_drain (nic : Nic) (B : Nat) :
    ∀ (k : Nat) (s : RxSystem),
      s.task.running = true → s.task.reader.m_stop = false → s.task.reader.m_device = true →
      s.task.reader.m_bufferSize = B →
      (∀ m ∈ s.host.dev.m_rxRing.items, m.sane = true ∧ 0 < m.pkt_len ∧ m.pkt_len ≤ B) →
      s.host.dev.m_rxRing.items.length ≤ k →
      ∃ s1 : RxSystem,
        rxRun nic (List.replicate k RxOp.reader) s = some s1 ∧
        s1.host.dev.m_rxRing.items = [] ∧
        s1.host.port = s.host.port ∧
        s1.task.delivered.map deliveredView
          = s.task.delivered.map deliveredView ++ s.host.dev.m_rxRing.items.map rte_mbuf.frame := by
  intro k
  induction k with
  | zero =>
    intro s _ _ _ _ _ hlen
    have hnil : s.host.dev.m_rxRing.items = [] := List.length_eq_zero.mp (by omega)
    exact ⟨s, rfl, hnil, rfl, by simp [hnil]⟩
  | succ k ih =>
    intro s hrun hstop hdev hB hsane hlen
    cases hring : s.host.dev.m_rxRing.items with
    | nil =>
      have hit := iteration_empty s.task s.host.dev hrun hstop hdev hring
      have hstep : rxStep nic s RxOp.reader = some s := by
        simp only [rxStep, hit]
      obtain ⟨s1, h0, h1, h2, h3⟩ := ih s hrun hstop hdev hB hsane (by rw [hring]; simp)
      refine ⟨s1, by simp only [List.replicate_succ, rxRun, hstep]; exact h0, h1, h2, ?_⟩
      rw [h3, hring]
    | cons m rest =>
      obtain ⟨hms, hmp, hmb⟩ := hsane m (by simp [hring])
      obtain ⟨s2, buf, hstep, r1, r2, r3, hview, r4, r5⟩ :=
        rxStep_reader_cons nic s hrun hstop hdev m rest hring hms hmp (by omega)
      obtain ⟨s1, h0, h1, h2, h3⟩ := ih s2 r1 (by rw [r2]; exact hstop)
        (by rw [r2]; exact hdev) (by rw [r2]; exact hB)
        (by
          intro x hx
          rw [r4] at hx
          exact hsane x (by rw [hring]; exact List.mem_cons_of_mem _ hx))
        (by
          rw [hring] at hlen
          simp only [List.length_cons] at hlen
          rw [r4]
          omega)
      refine ⟨s1, by simp only [List.replicate_succ, rxRun, hstep]; exact h0, h1, ?_, ?_⟩
      · rw [h2, r5]
      · rw [h3, r3, r4]
        simp [hview]

/-- Claim C6, as amended: let every buffer the hardware hands over be well
formed, of non-zero length and no longer than the reader's buffer
(`m_bufferSize`).  Start the receive path with an empty inbound ring, nothing
received or delivered, and a running reader with its device attached and no
stop requested.  Take any sequence `ops` of runs of `HandleRx` and iterations
of the reader loop, in any order (iterations that find the ring empty
included), in which no `HandleRx` overflows the ring.  Then the execution is
defined, and at the end of `ops` the frames delivered to the callback
followed by the frames still in the ring are exactly the frames received, in
order; and after `k` further iterations of the reader, `k` at least the
number of handles left in the ring, the callback has been invoked exactly
once per received frame, in the order received, with the length and the
payload of the frame, and the ring is empty. -/
theorem rx_fifo_delivery (nic : Nic) (s0 : RxSystem)
    (hnic : ∀ i, ∀ m ∈ nic.rxArrive i,
      m.sane = true ∧ 0 < m.pkt_len ∧ m.pkt_len ≤ s0.task.reader.m_bufferSize)
    (hring : s0.host.dev.m_rxRing.items = [])
    (hrecv : s0.host.port.rxCalls = [])
    (hdel : s0.task.delivered = [])
    (hrun : s0.task.running = true)
    (hstop : s0.task.reader.m_stop = false)
    (hdev : s0.task.reader.m_device = true)
    (ops : List RxOp)
    (hfit : rxNoOverflow nic ops s0 = true)
    (k : Nat)
    (hk : rxBacklog nic ops s0 ≤ k) :
    ∃ s1 s2 : RxSystem,
      rxRun nic ops s0 = some s1 ∧
      rxRun nic (ops ++ List.replicate k RxOp.reader) s0 = some s2 ∧
      s1.task.delivered.map deliveredView ++ s1.host.dev.m_rxRing.items.map rte_mbuf.frame
        = s1.host.port.received.map rte_mbuf.frame ∧
      s2.task.delivered.map deliveredView = s1.host.port.received.map rte_mbuf.frame ∧
      s2.host.port.received = s1.host.port.received ∧
      s2.host.dev.m_rxRing.items = [] := by
  obtain ⟨s1, h0, h1, h2, h3, recv, h4, h5⟩ :=
    rx_invariant nic s0.task.reader.m_bufferSize hnic ops s0 hrun hstop hdev rfl
      (by rw [hring]; simp) hfit
  have hrecv0 : s0.host.port.received = [] := by simp [PortLog.received, hrecv]
  have hinv : s1.task.delivered.map deliveredView ++ s1.host.dev.m_rxRing.items.map rte_mbuf.frame
      = s1.host.port.received.map rte_mbuf.frame := by
    rw [h5, h4, hrecv0, hdel, hring]
    simp
  have hk1 : s1.host.dev.m_rxRing.items.length ≤ k := by
    simpa only [rxBacklog, h0] using hk
  obtain ⟨s2, d0, d1, d2, d3⟩ := rx_drain nic s0.task.reader.m_bufferSize k s1 h1
    (by rw [h2]; exact hstop) (by rw [h2]; exact hdev) (by rw [h2]) h3 hk1
  refine ⟨s1, s2, h0, ?_, hinv, ?_, ?_, d1⟩
  · rw [rxRun_append, h0]
    exact d0
  · rw [d3, hinv]
  · rw [d2]

theorem nicThree_frames : ∀ i, ∀ m ∈ nicThree.rxArrive i,
    m.sane = true ∧ 0 < m.pkt_len ∧ m.pkt_len ≤ rxStart.task.reader.m_bufferSize := by
  intro i m hm
  simp only [nicThree] at hm
  split_ifs at hm
  · simp only [List.mem_cons, List.mem_singleton, List.not_mem_nil, or_false] at hm
    rcases hm with hm | hm <;> subst hm <;> decide
  · simp only [List.mem_cons, List.mem_singleton, List.not_mem_nil, or_false] at hm
    subst hm; decide
  · simp at hm

/-- The amended C6 for three frames arriving in two bursts while the reader
(with a buffer of 64 bytes) runs in between, one of its iterations finding
the ring empty. -/
theorem rx_fifo_delivery_witness :
    ∃ s1 s2 : RxSystem,
      rxRun nicThree [RxOp.reader, RxOp.handleRx, RxOp.reader, RxOp.handleRx, RxOp.handleRx]
        rxStart = some s1 ∧
      rxRun nicThree ([RxOp.reader, RxOp.handleRx, RxOp.reader, RxOp.handleRx, RxOp.handleRx]
        ++ List.replicate 2 RxOp.reader) rxStart = some s2 ∧
      s1.task.delivered.map deliveredView ++ s1.host.dev.m_rxRing.items.map rte_mbuf.frame
        = s1.host.port.received.map rte_mbuf.frame ∧
      s2.task.delivered.map deliveredView = s1.host.port.received.map rte_mbuf.frame ∧
      s2.host.port.received = s1.host.port.received ∧
      s2.host.dev.m_rxRing.items = [] :=
  rx_fifo_delivery nicThree rxStart nicThree_frames (by decide) (by decide) (by decide)
    (by decide) (by decide) (by decide)
    [RxOp.reader, RxOp.handleRx, RxOp.reader, RxOp.handleRx, RxOp.handleRx] (by decide) 2
    (by decide)

/-- The run of the witness of C6 evaluated: the three frames received have been
delivered in order, each with its length and payload. -/
theorem rx_three_run :
    (rxRun nicThree ([RxOp.reader, RxOp.handleRx, RxOp.reader, RxOp.handleRx, RxOp.handleRx]
        ++ List.replicate 2 RxOp.reader) rxStart).map
        (fun s => s.task.delivered.map deliveredView)
      = some [([5, 6], 2), ([7], 1), ([8, 9, 10], 3)] := by
  decide

/-- Claim C6 as stated fails: a zero-length buffer and a one-byte frame arrive
in one burst that fits the ring.  The reader's first read returns 0, which
`Run` takes as the end of the stream: the loop is left, the callback is never
invoked, and the one-byte frame stays in the ring however often the reader is
scheduled. -/
theorem rx_fifo_delivery_counterexample :
    rxNoOverflow nicRunt [RxOp.handleRx, RxOp.reader, RxOp.reader, RxOp.reader] rxStart = true ∧
    (rxRun nicRunt [RxOp.handleRx, RxOp.reader, RxOp.reader, RxOp.reader] rxStart).map
        (fun s => s.host.port.received) = some [mkFrame 1 [], mkFrame 2 [7]] ∧
    (rxRun nicRunt [RxOp.handleRx, RxOp.reader, RxOp.reader, RxOp.reader] rxStart).map
        (fun s => s.task.delivered) = some [] ∧
    (rxRun nicRunt [RxOp.handleRx, RxOp.reader, RxOp.reader, RxOp.reader] rxStart).map
        (fun s => s.task.running) = some false ∧
    (rxRun nicRunt [RxOp.handleRx, RxOp.reader, RxOp.reader, RxOp.reader] rxStart).map
        (fun s => s.host.dev.m_rxRing.items) = some [mkFrame 2 [7]] := by
  decide

/-- A frame of 70 bytes received while the reader's buffer has 64: the burst
fits the ring, and the reader's iteration has no defined outcome, `Read`
writing past the end of the buffer. -/
theorem rx_overrun_run :
    rxStart.task.reader.m_bufferSize = 64 ∧
    rxNoOverflow nicJumbo [RxOp.handleRx, RxOp.reader] rxStart = true ∧
    (rxRun nicJumbo [RxOp.handleRx] rxStart).map
        (fun s => s.host.dev.m_rxRing.items.map rte_mbuf.pkt_len) = some [70] ∧
    rxRun nicJumbo [RxOp.handleRx, RxOp.reader] rxStart = none := by
  decide

/-! ## HandleRx on a ring without room -/

/-- Claim C7 fails on the code: the inbound ring (size 1) is full and one buffer
arrives.  After `HandleRx` the ring and the pool are what they were: the
buffer the hardware handed over is neither in the ring nor back in the pool. -/
theorem HandleRx_overflow_leaks :
    (rte_eth_rx_burst nicOne rxFullHost.port MAX_RX_BURST).1 = [mkFrame 2 [7]] ∧
    rte_ring_free_count rxFullHost.dev.m_rxRing = 0 ∧
    (DpdkNetDevice.HandleRx nicOne rxFullHost).dev.m_rxRing = rxFullHost.dev.m_rxRing ∧
    (DpdkNetDevice.HandleRx nicOne rxFullHost).dev.m_mempool = rxFullHost.dev.m_mempool ∧
    mkFrame 2 [7] ∉ (DpdkNetDevice.HandleRx nicOne rxFullHost).dev.m_rxRing.items ∧
    mkFrame 2 [7] ∉ (DpdkNetDevice.HandleRx nicOne rxFullHost).dev.m_mempool.free ∧
    (mkFrame 2 [7]).addr ∉
      ((DpdkNetDevice.HandleRx nicOne rxFullHost).dev.m_mempool.free.map rte_mbuf.addr) := by
  decide

/-! ## Ring capacity -/

theorem writeAll_spec :
    ∀ (fs : List Frame) (dev : DpdkNetDevice),
      dev.m_txRing.items.length + fs.length ≤ dev.m_txRing.capacity →
      fs.length ≤ dev.m_mempool.free.length →
      (∀ f ∈ fs, f.2 ≤ f.1.length ∧ f.2 < 2 ^ 16) →
      (writeAll fs dev).1 = fs.map (fun f => (f.2 : Int)) ∧
      (writeAll fs dev).2.m_txRing.items.length = dev.m_txRing.items.length + fs.length ∧
      (writeAll fs dev).2.m_txRing.capacity = dev.m_txRing.capacity ∧
      (writeAll fs dev).2.m_mempool.free.length + fs.length = dev.m_mempool.free.length := by
  intro fs
  induction fs with
  | nil => intro dev _ _ _; simp [writeAll]
  | cons f fs ih =>
    intro dev hcap hpool hfit
    simp only [List.length_cons] at hcap hpool
    cases hfree : dev.m_mempool.free with
    | nil => rw [hfree] at hpool; simp at hpool
    | cons m rest =>
      rw [hfree] at hpool
      simp only [List.length_cons] at hpool
      have hw := Write_eq_of_cons dev f.1 f.2 m rest hfree (by omega)
      obtain ⟨_, h16⟩ := hfit f (by simp)
      have hret : toSSize f.2 = (f.2 : Int) := toSSize_of_lt f.2 (by omega)
      have e1 : (dev.Write f.1 f.2).2.m_txRing.items.length = dev.m_txRing.items.length + 1 := by
        rw [hw]; simp
      have e2 : (dev.Write f.1 f.2).2.m_txRing.capacity = dev.m_txRing.capacity := by rw [hw]
      have e3 : (dev.Write f.1 f.2).2.m_mempool.free.length = rest.length := by rw [hw]
      have e4 : (dev.Write f.1 f.2).1 = (f.2 : Int) := by rw [hw, hret]
      obtain ⟨h1, h2, h3, h4⟩ := ih (dev.Write f.1 f.2).2
        (by rw [e1, e2]; omega) (by rw [e3]; omega)
        (fun x hx => hfit x (by simp [hx]))
      refine ⟨?_, ?_, ?_, ?_⟩
      · simp only [writeAll, h1, List.map_cons, e4]
      · simp only [writeAll, h2, List.length_cons, e1]; omega
      · simp only [writeAll, h3, e2]
      · simp only [writeAll, List.length_cons]; omega

theorem ringScenario_spec (dev : DpdkNetDevice) (N n : Nat) (fs1 fs2 : List Frame)
    (f g : Frame)
    (hitems : dev.m_txRing.items = [])
    (hcap : dev.m_txRing.capacity = N)
    (hN : fs1.length = N)
    (hk : fs2.length = min n N)
    (hpool : N + min n N + 1 ≤ dev.m_mempool.free.length)
    (hb : ∀ x ∈ fs1 ++ fs2, x.2 ≤ x.1.length ∧ x.2 < 2 ^ 16) :
    ringScenario dev fs1 f n fs2 g
      = (fs1.map (fun x => (x.2 : Int)), -1, min n N, fs2.map (fun x => (x.2 : Int)), -1) := by
  obtain ⟨a1, a2, a3, a4⟩ := writeAll_spec fs1 dev
    (by rw [hitems, hcap, hN]; simp) (by omega) (fun x hx => hb x (by simp [hx]))
  rw [hitems] at a2
  simp only [List.length_nil, Nat.zero_add] at a2
  have hw2 := Write_eq_of_full (writeAll fs1 dev).2 f.1 f.2 (by omega)
  have c1 : ((((writeAll fs1 dev).2.Write f.1 f.2).2).drainTx n).2.m_txRing.items.length
      = N - n := by
    rw [hw2]
    simp only [DpdkNetDevice.drainTx, rte_ring_dequeue_burst, List.length_drop, a2, hN]
  have c2 : ((((writeAll fs1 dev).2.Write f.1 f.2).2).drainTx n).2.m_txRing.capacity = N := by
    rw [hw2]
    simp only [DpdkNetDevice.drainTx, rte_ring_dequeue_burst, a3, hcap]
  have c3 : ((((writeAll fs1 dev).2.Write f.1 f.2).2).drainTx n).2.m_mempool.free.length + 1
      = (writeAll fs1 dev).2.m_mempool.free.length := by
    rw [hw2]
    simp only [DpdkNetDevice.drainTx, List.length_tail]
    omega
  have c4 : ((((writeAll fs1 dev).2.Write f.1 f.2).2).drainTx n).1.length = min n N := by
    rw [hw2]
    simp only [DpdkNetDevice.drainTx, rte_ring_dequeue_burst, List.length_take, a2, hN]
  obtain ⟨b1, b2, b3, b4⟩ := writeAll_spec fs2
    ((((writeAll fs1 dev).2.Write f.1 f.2).2).drainTx n).2
    (by rw [c1, c2]; omega) (by omega) (fun x hx => hb x (by simp [hx]))
  have hw4 := Write_eq_of_full
    (writeAll fs2 ((((writeAll fs1 dev).2.Write f.1 f.2).2).drainTx n).2).2 g.1 g.2
    (by rw [b2, b3, c1, c2]; omega)
  have hw2r : ((writeAll fs1 dev).2.Write f.1 f.2).1 = -1 := by rw [hw2]
  have hw4r : ((writeAll fs2 ((((writeAll fs1 dev).2.Write f.1 f.2).2).drainTx n).2).2.Write
      g.1 g.2).1 = -1 := by rw [hw4]
  simp only [ringScenario, hw4r, b1, a1, hw2r, c4]

theorem writeAll_append :
    ∀ (fs1 fs2 : List Frame) (dev : DpdkNetDevice),
      writeAll (fs1 ++ fs2) dev
        = ((writeAll fs1 dev).1 ++ (writeAll fs2 (writeAll fs1 dev).2).1,
            (writeAll fs2 (writeAll fs1 dev).2).2) := by
  intro fs1
  induction fs1 with
  | nil => intro fs2 dev; simp [writeAll]
  | cons f fs ih =>
    intro fs2 dev
    simp only [List.cons_append, writeAll, List.append_eq, ih fs2 (dev.Write f.1 f.2).2]

theorem writeAll_exhausted :
    ∀ (fs : List Frame) (dev : DpdkNetDevice), dev.m_mempool.free = [] →
      writeAll fs dev = (fs.map (fun _ => (-1 : Int)), dev) := by
  intro fs
  induction fs with
  | nil => intro dev _; simp [writeAll]
  | cons f fs ih =>
    intro dev hfree
    have hw : dev.Write f.1 f.2 = (-1, dev) := by
      simp [DpdkNetDevice.Write, rte_pktmbuf_alloc, hfree]
    simp only [writeAll, hw, ih dev hfree, List.map_cons]

theorem writeAll_pool_short (dev : DpdkNetDevice) (n P M : Nat) (fr : Frame) (hn : n = P + M)
    (hitems : dev.m_txRing.items = [])
    (hcap : P ≤ dev.m_txRing.capacity)
    (hfree : dev.m_mempool.free.length = P)
    (hb : fr.2 ≤ fr.1.length ∧ fr.2 < 2 ^ 16) :
    (writeAll (List.replicate n fr) dev).1
      = List.replicate P (fr.2 : Int) ++ List.replicate M (-1 : Int) := by
  subst hn
  obtain ⟨a1, _, _, a4⟩ := writeAll_spec (List.replicate P fr) dev
    (by rw [hitems, List.length_replicate]; simpa using hcap)
    (by rw [List.length_replicate, hfree])
    (fun x hx => by rw [List.eq_of_mem_replicate hx]; exact hb)
  have hfree0 : (writeAll (List.replicate P fr) dev).2.m_mempool.free = [] := by
    apply List.length_eq_zero.mp
    rw [List.length_replicate] at a4
    omega
  rw [List.replicate_add, writeAll_append, a1, writeAll_exhausted _ _ hfree0]
  simp only [List.map_replicate]

theorem pool_create_length (n room : Nat) :
    (rte_pktmbuf_pool_create n room).free.length = n := by
  simp only [rte_pktmbuf_pool_create, List.length_map, List.length_range]

theorem zeros_bounds (n : Nat) (h : n < 2 ^ 16) :
    (zeros n).2 ≤ (zeros n).1.length ∧ (zeros n).2 < 2 ^ 16 := by
  simp only [zeros, List.length_replicate]
  exact ⟨le_refl n, h⟩

theorem nbMbufs_bounds (nbPorts : Nat) :
    8192 ≤ InitDpdk.nbMbufs nbPorts ∧ InitDpdk.nbMbufs nbPorts < 2 ^ 32 := by
  unfold InitDpdk.nbMbufs
  have h := Nat.mod_lt (nbPorts % 2 ^ 32 *
      (RTE_TEST_RX_DESC_DEFAULT + RTE_TEST_TX_DESC_DEFAULT + MAX_PKT_BURST + 1 * MEMPOOL_CACHE_SIZE))
    (show 0 < 2 ^ 32 by norm_num)
  constructor
  · exact Nat.le_max_right _ _
  · exact Nat.max_lt.mpr ⟨h, by norm_num⟩

theorem InitDpdk_eq (dev0 : DpdkNetDevice) (nbPorts bufSize N : Nat) (hports : 0 < nbPorts)
    (hN : N < 2 ^ 32) :
    (dev0.SetRteRingSize (N : Int)).InitDpdk nbPorts bufSize
      = some { m_forceQuit := false, m_ringSize := (N : Int), m_txRing := rte_ring_create N,
               m_rxRing := rte_ring_create N,
               m_mempool := rte_pktmbuf_pool_create (InitDpdk.nbMbufs nbPorts) bufSize } := by
  have hne : nbPorts ≠ 0 := by omega
  have hconv : ((N : Int) % (2 : Int) ^ 32).toNat = N := by
    have h1 : ((N : Int) % (2 : Int) ^ 32) = ((N % 2 ^ 32 : Nat) : Int) := by
      norm_cast
    rw [h1, Int.toNat_ofNat, Nat.mod_eq_of_lt hN]
  simp only [DpdkNetDevice.InitDpdk, DpdkNetDevice.SetRteRingSize, hne, if_false, hconv]

/-- Claim C8, as amended: run `SetRteRingSize (N)` and then `InitDpdk` on a host
with at least one port, where `InitDpdk` creates a pool of `nbMbufs` buffers (at
least 8192) and rings of configured size `N`, and let `N + k + 1` be at most
`nbMbufs`, where `k = min n N` is what a dequeue burst of size `n` removes from
the full ring.  Then `N` consecutive writes (of frames within a buffer's
capacity) succeed, each returning its length; the next write returns -1; the
drain removes `k` handles; exactly `k` further writes succeed; and the write
after them returns -1 again. -/
theorem ring_capacity_writes (dev0 : DpdkNetDevice) (nbPorts bufSize N n : Nat)
    (fs1 fs2 : List Frame) (f g : Frame)
    (hports : 0 < nbPorts)
    (hN : fs1.length = N)
    (hk : fs2.length = min n N)
    (hpool : N + min n N + 1 ≤ InitDpdk.nbMbufs nbPorts)
    (hfit : ∀ x ∈ fs1 ++ fs2,
      x.fits (rte_pktmbuf_pool_create (InitDpdk.nbMbufs nbPorts) bufSize) = true) :
    ((dev0.SetRteRingSize (N : Int)).InitDpdk nbPorts bufSize).map
        (fun dev => ringScenario dev fs1 f n fs2 g)
      = some (fs1.map (fun x => (x.2 : Int)), -1, min n N, fs2.map (fun x => (x.2 : Int)), -1) := by
  have hb := nbMbufs_bounds nbPorts
  rw [InitDpdk_eq dev0 nbPorts bufSize N hports (by omega)]
  simp only [Option.map_some', Option.some.injEq]
  exact ringScenario_spec _ N n fs1 fs2 f g rfl rfl hN hk
    (by rw [pool_create_length]; exact hpool)
    (fun x hx => Frame.fits_bounds _ x (hfit x hx))

/-- The example of the specification on a host with one port (a pool of 8192
buffers): size 4, frames of lengths 10, 20, 30 and 40 succeed, a fifth fails,
and after a drain of 2 two more writes succeed before the next failure. -/
theorem ring_capacity_writes_witness :
    (((mkDevice 0 0).SetRteRingSize ((4 : Nat) : Int)).InitDpdk 1 2176).map
        (fun dev => ringScenario dev [zeros 10, zeros 20, zeros 30, zeros 40] (zeros 50) 2
          [zeros 11, zeros 12] (zeros 13))
      = some ([zeros 10, zeros 20, zeros 30, zeros 40].map (fun x => (x.2 : Int)), -1, min 2 4,
          [zeros 11, zeros 12].map (fun x => (x.2 : Int)), -1) :=
  ring_capacity_writes (mkDevice 0 0) 1 2176 4 2 [zeros 10, zeros 20, zeros 30, zeros 40]
    [zeros 11, zeros 12] (zeros 50) (zeros 13) (by decide) (by decide) (by decide) (by decide)
    (by decide)

/-- Claim C8 as stated fails: on a host with one port `InitDpdk` creates a pool
of 8192 buffers.  With the rings configured to size 16384 and starting empty,
of 16384 consecutive writes of ten-byte frames the first 8192 return 10 and
empty the pool, and every later one returns -1 although the ring has room. -/
theorem ring_capacity_writes_counterexample :
    InitDpdk.nbMbufs 1 = 8192 ∧
    (((mkDevice 0 0).SetRteRingSize ((16384 : Nat) : Int)).InitDpdk 1 2176).map
        (fun dev => (dev.m_txRing, (writeAll (List.replicate 16384 (zeros 10)) dev).1))
      = some (rte_ring_create 16384,
          List.replicate 8192 (10 : Int) ++ List.replicate 8192 (-1 : Int)) := by
  have hmb : InitDpdk.nbMbufs 1 = 8192 := by decide
  have hlen : (rte_pktmbuf_pool_create (InitDpdk.nbMbufs 1) 2176).free.length = 8192 := by
    rw [pool_create_length, hmb]
  refine ⟨hmb, ?_⟩
  rw [InitDpdk_eq (mkDevice 0 0) 1 2176 16384 (by decide) (by norm_num)]
  have hw := writeAll_pool_short
    { m_forceQuit := false, m_ringSize := ((16384 : Nat) : Int), m_txRing := rte_ring_create 16384,
      m_rxRing := rte_ring_create 16384,
      m_mempool := rte_pktmbuf_pool_create (InitDpdk.nbMbufs 1) 2176 }
    16384 8192 8192 (zeros 10) (by norm_num) rfl
    (show 8192 ≤ 16384 by norm_num) hlen (zeros_bounds 10 (by norm_num))
  rw [Option.map_some', hw]
  rfl

/-! ## LaunchCore -/

/-- The bound of the amended C9 is attained: with 32 handles waiting and the
flag set right after the first test of the loop condition, 32 tx-burst calls
and one rx-burst call follow. -/
theorem LaunchCore_bound_attained :
    (DpdkNetDevice.LaunchCore nicOneByOne 0 true 1 40
        { dev := (writeAll (List.replicate 32 ([1], 1)) (mkDevice 32 32)).2,
          port := PortLog.fresh }).map
        (fun r => (r.2.port.txCalls.length, r.2.port.rxCalls.length, r.2.port.clock))
      = some (32, 1, 33) := by
  decide

/-! ## Write on a full ring and the pool -/

theorem writeAll_full :
    ∀ (fs : List Frame) (dev : DpdkNetDevice),
      dev.m_txRing.capacity ≤ dev.m_txRing.items.length →
      (writeAll fs dev).1 = fs.map (fun _ => (-1 : Int)) ∧
      (writeAll fs dev).2.m_txRing = dev.m_txRing ∧
      (writeAll fs dev).2.m_rxRing = dev.m_rxRing ∧
      (writeAll fs dev).2.m_mempool.free = dev.m_mempool.free.drop fs.length := by
  intro fs
  induction fs with
  | nil => intro dev _; simp [writeAll]
  | cons f fs ih =>
    intro dev hfull
    have hw := Write_eq_of_full dev f.1 f.2 hfull
    have e1 : (dev.Write f.1 f.2).1 = -1 := by rw [hw]
    have e2 : (dev.Write f.1 f.2).2.m_txRing = dev.m_txRing := by rw [hw]
    have e3 : (dev.Write f.1 f.2).2.m_rxRing = dev.m_rxRing := by rw [hw]
    have e4 : (dev.Write f.1 f.2).2.m_mempool.free = dev.m_mempool.free.tail := by rw [hw]
    obtain ⟨h1, h2, h3, h4⟩ := ih (dev.Write f.1 f.2).2 (by rw [e2]; exact hfull)
    refine ⟨?_, ?_, ?_, ?_⟩
    · simp only [writeAll, h1, e1, List.map_cons]
    · simp only [writeAll, h2, e2]
    · simp only [writeAll, h3, e3]
    · simp only [writeAll, h4, e4, List.length_cons]
      cases dev.m_mempool.free with
      | nil => simp
      | cons m rest => simp

/-- Claim C11: when the pool has a free buffer and the outbound ring is full,
`Write` returns -1 and the buffer it has taken from the pool is neither
enqueued nor freed: the outbound ring (and the inbound ring) is unchanged and
the pool's free buffers are the former ones without the first, one fewer than
before.  Nothing gives the buffer back: any further writes `fs` on the ring
still full all return -1, leave the ring unchanged and take one buffer each
from what is left of the pool. -/
theorem Write_full_leaks (dev : DpdkNetDevice) (buffer : List Byte) (length : Nat)
    (hpool : dev.m_mempool.free ≠ [])
    (hfull : rte_ring_full dev.m_txRing = true) :
    (dev.Write buffer length).1 = -1 ∧
    (dev.Write buffer length).2.m_txRing = dev.m_txRing ∧
    (dev.Write buffer length).2.m_rxRing = dev.m_rxRing ∧
    (dev.Write buffer length).2.m_mempool.free = dev.m_mempool.free.tail ∧
    (dev.Write buffer length).2.m_mempool.free.length + 1 = dev.m_mempool.free.length ∧
    ∀ fs : List Frame,
      (writeAll fs (dev.Write buffer length).2).1 = fs.map (fun _ => (-1 : Int)) ∧
      (writeAll fs (dev.Write buffer length).2).2.m_txRing = dev.m_txRing ∧
      (writeAll fs (dev.Write buffer length).2).2.m_mempool.free
        = dev.m_mempool.free.drop (fs.length + 1) := by
  have hcap : dev.m_txRing.capacity ≤ dev.m_txRing.items.length := by
    simpa [rte_ring_full] using hfull
  have hw := Write_eq_of_full dev buffer length hcap
  have e2 : (dev.Write buffer length).2.m_txRing = dev.m_txRing := by rw [hw]
  have e4 : (dev.Write buffer length).2.m_mempool.free = dev.m_mempool.free.tail := by rw [hw]
  refine ⟨by rw [hw], e2, by rw [hw], e4, ?_, ?_⟩
  · rw [e4]
    cases hfree : dev.m_mempool.free with
    | nil => exact absurd hfree hpool
    | cons m rest => simp
  · intro fs
    obtain ⟨h1, h2, _, h4⟩ := writeAll_full fs (dev.Write buffer length).2 (by rw [e2]; exact hcap)
    refine ⟨h1, by rw [h2, e2], ?_⟩
    rw [h4, e4]
    cases dev.m_mempool.free with
    | nil => simp
    | cons m rest => simp

/-- Witness of C11: a ring of size 1 filled by one write, with two free buffers
left in the pool. -/
theorem Write_full_leaks_witness :
    ((writeAll [([1], 1)] (mkDevice 1 3)).2.Write [7, 8] 2).1 = -1 ∧
    ((writeAll [([1], 1)] (mkDevice 1 3)).2.Write [7, 8] 2).2.m_txRing
      = (writeAll [([1], 1)] (mkDevice 1 3)).2.m_txRing ∧
    ((writeAll [([1], 1)] (mkDevice 1 3)).2.Write [7, 8] 2).2.m_rxRing
      = (writeAll [([1], 1)] (mkDevice 1 3)).2.m_rxRing ∧
    ((writeAll [([1], 1)] (mkDevice 1 3)).2.Write [7, 8] 2).2.m_mempool.free
      = (writeAll [([1], 1)] (mkDevice 1 3)).2.m_mempool.free.tail ∧
    ((writeAll [([1], 1)] (mkDevice 1 3)).2.Write [7, 8] 2).2.m_mempool.free.length + 1
      = (writeAll [([1], 1)] (mkDevice 1 3)).2.m_mempool.free.length ∧
    ∀ fs : List Frame,
      (writeAll fs ((writeAll [([1], 1)] (mkDevice 1 3)).2.Write [7, 8] 2).2).1
        = fs.map (fun _ => (-1 : Int)) ∧
      (writeAll fs ((writeAll [([1], 1)] (mkDevice 1 3)).2.Write [7, 8] 2).2).2.m_txRing
        = (writeAll [([1], 1)] (mkDevice 1 3)).2.m_txRing ∧
      (writeAll fs ((writeAll [([1], 1)] (mkDevice 1 3)).2.Write [7, 8] 2).2).2.m_mempool.free
        = (writeAll [([1], 1)] (mkDevice 1 3)).2.m_mempool.free.drop (fs.length + 1) :=
  Write_full_leaks (writeAll [([1], 1)] (mkDevice 1 3)).2 [7, 8] 2 (by decide) (by decide)

end ns3
